import Mathlib

/-!
# CMSIS-POSIX memory pool: shallow embedding and verified properties

The embedding follows `src/cmsisPosix_MemoryPool.c` and `src/cmsisPosix_Common.c`.

Modelling conventions:

* `uint32_t` values are natural numbers below `2 ^ 32`; every `uint32_t` operation of the
  source that can wrap carries an explicit `% U32`.
* Pointers are natural-number addresses, `NULL` is address `0`.  Adding a `uint32_t` offset to
  a pointer is plain addition of addresses.
* A pool handle (`osMemoryPoolId_t`) is `Option cmsisPosix_memoryPoolHandler_t`; `none` is the
  null handle.  Operations take the handle and return the handle with its updated contents.
* Execution is sequential: the mutex is not represented, and a semaphore is its counter.
  A wait on a counter of zero that nobody else can post either fails (try / timed wait) or
  never returns (`sem_wait`), the latter being the result `none` of `osMemoryPoolAlloc`.
  A wait on a positive counter succeeds; interruption of a wait by a signal is not
  represented.
* The flag array is a list; a read at an index beyond the list yields `false` and a write
  there does nothing.  In states with one flag per slot no such access occurs.
-/

namespace CmsisPosix

/-! ## Machine-level basics -/

/-- Modulus of `uint32_t` arithmetic. -/
def U32 : Nat := 4294967296

/-- Addresses. -/
abbrev Ptr := Nat

/-- The null pointer. -/
def NULL : Ptr := 0

/-- Modelled from the spec: the status enumeration `osStatus_t` of `cmsis_os2.h` (the header is
not part of the sources); the pool code only produces `osOK` and `osErrorParameter`. -/
inductive osStatus_t where
  | osOK
  | osError
  | osErrorTimeout
  | osErrorResource
  | osErrorParameter
  | osErrorNoMemory
  | osErrorISR
  deriving DecidableEq, Repr

open osStatus_t

/-- Modelled from the spec: the wait-forever timeout value `osWaitForever` of `cmsis_os2.h`
(the header is not part of the sources), the all-ones 32-bit word. -/
def osWaitForever : Nat := 4294967295

/-- Modelled from the spec: creation attributes `osMemoryPoolAttr_t` of `cmsis_os2.h`; the pool
code reads only the optional `name`. -/
structure osMemoryPoolAttr_t where
  name : Option String
  deriving DecidableEq, Repr

/-- The pool control block `cmsisPosix_memoryPoolHandler_t`.  `sem` is the counter of the
semaphore, `used_flags` the array of status flags. -/
structure cmsisPosix_memoryPoolHandler_t where
  name : Option String
  block_count : Nat
  block_size : Nat
  padded_block_size : Nat
  arena : Ptr
  sem : Nat
  used_flags : List Bool
  deriving DecidableEq, Repr

/-- Handle type `osMemoryPoolId_t`: `none` is the null handle. -/
abbrev osMemoryPoolId_t := Option cmsisPosix_memoryPoolHandler_t

/-! ## Deadline converter (`cmsisPosix_Common.c`) -/

/-- The `struct timespec` fields used by the converter. -/
structure timespec where
  tv_sec : Int
  tv_nsec : Int
  deriving DecidableEq, Repr

/-- What the converter takes from its surroundings: the configuration constant
`CP_CONFIG_NANO_IN_TICK` (from `cmsisPosix_Config.h`, not part of the sources) and the time
stored by `clock_gettime(CLOCK_REALTIME, ts)`. -/
structure TimeEnv where
  CP_CONFIG_NANO_IN_TICK : Int
  clock_gettime : timespec

/-- Reduction of an integer to the range of `int64_t` (two's complement). -/
def wrapInt64 (x : Int) : Int :=
  (x + 9223372036854775808) % 18446744073709551616 - 9223372036854775808

/-- The function `cp_timeoutToTimespec`: current time plus `timeout` ticks, with the
nanosecond field normalised by one carry step.  The product `total_nanos` is an `int64_t`
product; the fields of the `timespec` are unbounded integers. -/
def cp_timeoutToTimespec (env : TimeEnv) (timeout : Nat) : timespec :=
  let ts := env.clock_gettime
  let total_nanos : Int := wrapInt64 ((timeout : Int) * env.CP_CONFIG_NANO_IN_TICK)
  let ts : timespec :=
    { tv_sec := ts.tv_sec + Int.tdiv total_nanos 1000000000
      tv_nsec := ts.tv_nsec + Int.tmod total_nanos 1000000000 }
  if ts.tv_nsec ≥ 1000000000 then
    { tv_sec := ts.tv_sec + Int.tdiv ts.tv_nsec 1000000000
      tv_nsec := Int.tmod ts.tv_nsec 1000000000 }
  else ts

/-! ## Semaphore counter (platform layer, sequential view) -/

/-- The call `sem_trywait`: return value and new counter. -/
def sem_trywait (sem : Nat) : Int × Nat :=
  if 0 < sem then (0, sem - 1) else (-1, sem)

/-- The call `sem_wait`: with a positive counter it decrements and returns `0`; with a zero
counter that nobody posts it never returns (`none`). -/
def sem_wait (sem : Nat) : Option (Int × Nat) :=
  if 0 < sem then some (0, sem - 1) else none

/-- The call `sem_timedwait`: with a positive counter it decrements and returns `0`; with a
zero counter that nobody posts the wait ends at the deadline with `-1`. -/
def sem_timedwait (sem : Nat) (_abs_timeout : timespec) : Int × Nat :=
  if 0 < sem then (0, sem - 1) else (-1, sem)

/-- The call `sem_post`: increment the counter. -/
def sem_post (sem : Nat) : Nat := sem + 1

/-- The call `sem_getvalue` on a valid semaphore: return value `0` and the counter (which
never exceeds `SEM_VALUE_MAX` and so fits the `int` it is stored in). -/
def sem_getvalue (sem : Nat) : Int × Int := (0, (sem : Int))

/-! ## Memory pool (`cmsisPosix_MemoryPool.c`) -/

/-- Outcome of the resource acquisitions made by `osMemoryPoolNew`. -/
structure AllocEnv where
  /-- `malloc(sizeof(cmsisPosix_memoryPoolHandler_t))` returned non-null -/
  malloc_handler : Bool
  /-- `sem_init` returned `0` -/
  sem_init : Bool
  /-- `pthread_mutex_init` returned `0` -/
  pthread_mutex_init : Bool
  /-- `calloc(block_count, sizeof(bool))` returned non-null -/
  calloc_flags : Bool
  /-- address returned by `malloc` for the arena, by requested size (`0` is `NULL`) -/
  malloc_arena : Nat → Ptr

/-- The expression `4 * ((block_size + 3) / 4)` in `uint32_t` arithmetic. -/
def padBlockSize (block_size : Nat) : Nat :=
  (4 * (((block_size + 3) % U32) / 4)) % U32

/-- The `uint32_t` product `block_count * padded_block_size` passed to `malloc` for the arena. -/
def arenaBytes (block_count padded_block_size : Nat) : Nat :=
  (block_count * padded_block_size) % U32

/-- The expression `mem_pool->arena + (idx * mem_pool->padded_block_size)`, the product being
a `uint32_t` product. -/
def slotAddr (mem_pool : cmsisPosix_memoryPoolHandler_t) (idx : Nat) : Ptr :=
  mem_pool.arena + (idx * mem_pool.padded_block_size) % U32

/-- The function `osMemoryPoolDelete`. -/
def osMemoryPoolDelete (mp_id : osMemoryPoolId_t) : osStatus_t × osMemoryPoolId_t :=
  match mp_id with
  | none => (osErrorParameter, none)
  | some _ => (osOK, none)

/-- The function `osMemoryPoolNew`. -/
def osMemoryPoolNew (env : AllocEnv) (block_count block_size : Nat)
    (attr : Option osMemoryPoolAttr_t) : osMemoryPoolId_t :=
  if block_count == 0 || block_size == 0 then none
  else
    let padded_block_size := padBlockSize block_size
    if !env.malloc_handler then none
    else if !env.sem_init then none
    else if !env.pthread_mutex_init then none
    else
      let name := match attr with
        | some a => a.name
        | none => none
      let used_flags : Option (List Bool) :=
        if env.calloc_flags then some (List.replicate block_count false) else none
      let arena := env.malloc_arena (arenaBytes block_count padded_block_size)
      -- `arena == NULL || used_flags == NULL`: `osMemoryPoolDelete(mem_pool); return NULL;`
      match used_flags with
      | none => none
      | some flags =>
        if arena == NULL then none
        else some
          { name := name
            block_count := block_count
            block_size := block_size
            padded_block_size := padded_block_size
            arena := arena
            sem := block_count
            used_flags := flags }

/-- Failure of a call that the C code does not survive. -/
inductive Fault where
  | nullDereference
  deriving DecidableEq, Repr

/-- The function `osMemoryPoolGetName`.  For a null handle the body evaluates the expression
statement `NULL;` and goes on to read `mem_pool->name`. -/
def osMemoryPoolGetName (mp_id : osMemoryPoolId_t) : Except Fault (Option String) :=
  match mp_id with
  | none => .error Fault.nullDereference
  | some mem_pool => .ok mem_pool.name

/-- The scan of `osMemoryPoolAlloc`: `n` iterations are left, `idx` is the loop variable.
Result: the value of `block` and the flags after the loop. -/
def allocScan (mem_pool : cmsisPosix_memoryPoolHandler_t) : Nat → Nat → Ptr × List Bool
  | 0, _ => (NULL, mem_pool.used_flags)
  | n + 1, idx =>
    if !(mem_pool.used_flags.getD idx false) then
      (slotAddr mem_pool idx, mem_pool.used_flags.set idx true)
    else allocScan mem_pool n (idx + 1)

/-- The function `osMemoryPoolAlloc`.  `none`: the call never returns. -/
def osMemoryPoolAlloc (tenv : TimeEnv) (mp_id : osMemoryPoolId_t) (timeout : Nat) :
    Option (Ptr × osMemoryPoolId_t) :=
  match mp_id with
  | none => some (NULL, none)
  | some mem_pool =>
    let waited : Option (Int × Nat) :=
      if timeout == 0 then some (sem_trywait mem_pool.sem)
      else if timeout == osWaitForever then sem_wait mem_pool.sem
      else
        let ts := cp_timeoutToTimespec tenv timeout
        some (sem_timedwait mem_pool.sem ts)
    match waited with
    | none => none
    | some (posix_ret, sem) =>
      if posix_ret != 0 then some (NULL, some { mem_pool with sem := sem })
      else
        let r := allocScan mem_pool mem_pool.block_count 0
        some (r.1, some { mem_pool with sem := sem, used_flags := r.2 })

/-- The scan of `osMemoryPoolFree`: `n` iterations are left, `idx` is the loop variable.
Result: the value of `status` and the flags after the loop. -/
def freeScan (mem_pool : cmsisPosix_memoryPoolHandler_t) (block : Ptr) :
    Nat → Nat → osStatus_t × List Bool
  | 0, _ => (osErrorParameter, mem_pool.used_flags)
  | n + 1, idx =>
    if block == slotAddr mem_pool idx then
      if mem_pool.used_flags.getD idx false then
        (osOK, mem_pool.used_flags.set idx false)
      else freeScan mem_pool block n (idx + 1)
    else freeScan mem_pool block n (idx + 1)

/-- The function `osMemoryPoolFree`. -/
def osMemoryPoolFree (mp_id : osMemoryPoolId_t) (block : Ptr) : osStatus_t × osMemoryPoolId_t :=
  match mp_id with
  | none => (osErrorParameter, none)
  | some mem_pool =>
    let r := freeScan mem_pool block mem_pool.block_count 0
    let sem := if r.1 == osOK then sem_post mem_pool.sem else mem_pool.sem
    (r.1, some { mem_pool with sem := sem, used_flags := r.2 })

/-- The function `osMemoryPoolGetCapacity`. -/
def osMemoryPoolGetCapacity (mp_id : osMemoryPoolId_t) : Nat :=
  match mp_id with
  | none => 0
  | some mem_pool => mem_pool.block_count

/-- The function `osMemoryPoolGetBlockSize`. -/
def osMemoryPoolGetBlockSize (mp_id : osMemoryPoolId_t) : Nat :=
  match mp_id with
  | none => 0
  | some mem_pool => mem_pool.block_size

/-- The function `osMemoryPoolGetCount`; the subtraction is a `uint32_t` subtraction. -/
def osMemoryPoolGetCount (mp_id : osMemoryPoolId_t) : Nat :=
  match mp_id with
  | none => 0
  | some mem_pool =>
    let r := sem_getvalue mem_pool.sem
    if r.1 != 0 || r.2 < 0 then 0
    else (((mem_pool.block_count : Int) - r.2) % (U32 : Int)).toNat

/-- The function `osMemoryPoolGetSpace`; the `int` result is returned as `uint32_t`. -/
def osMemoryPoolGetSpace (mp_id : osMemoryPoolId_t) : Nat :=
  match mp_id with
  | none => 0
  | some mem_pool =>
    let r := sem_getvalue mem_pool.sem
    let space : Int := if r.1 != 0 || r.2 < 0 then 0 else r.2
    (space % (U32 : Int)).toNat

/-! ## Executions, invariant, specification-side definitions -/

/-- Every resource acquisition of `osMemoryPoolNew(block_count, block_size, _)` succeeds. -/
def AllocEnv.allSucceed (env : AllocEnv) (block_count block_size : Nat) : Prop :=
  env.malloc_handler = true ∧ env.sem_init = true ∧ env.pthread_mutex_init = true ∧
    env.calloc_flags = true ∧
    env.malloc_arena (arenaBytes block_count (padBlockSize block_size)) ≠ NULL

/-- Bookkeeping invariant: one flag per slot, and the semaphore counter is the number of
slots whose flag is `false`. -/
def PoolInv (p : cmsisPosix_memoryPoolHandler_t) : Prop :=
  p.used_flags.length = p.block_count ∧ p.sem + p.used_flags.count true = p.block_count

/-- Pool states reachable from a successful `osMemoryPoolNew` by returning calls of
`osMemoryPoolAlloc` and `osMemoryPoolFree` with arbitrary arguments. -/
inductive Reachable : cmsisPosix_memoryPoolHandler_t → Prop where
  | created (env : AllocEnv) (block_count block_size : Nat) (attr : Option osMemoryPoolAttr_t)
      (p : cmsisPosix_memoryPoolHandler_t) :
      osMemoryPoolNew env block_count block_size attr = some p → Reachable p
  | alloc (tenv : TimeEnv) (timeout : Nat) (block : Ptr)
      (p q : cmsisPosix_memoryPoolHandler_t) :
      Reachable p → osMemoryPoolAlloc tenv (some p) timeout = some (block, some q) →
      Reachable q
  | free (block : Ptr) (status : osStatus_t) (p q : cmsisPosix_memoryPoolHandler_t) :
      Reachable p → osMemoryPoolFree (some p) block = (status, some q) → Reachable q

/-- A call made on a pool by its user. -/
inductive PoolCall where
  | alloc (tenv : TimeEnv) (timeout : Nat)
  | free (block : Ptr)

/-- Run a sequence of calls on a handle.  The second component lists the live addresses:
those returned non-null by `osMemoryPoolAlloc` and not yet released by a successful
`osMemoryPoolFree` (most recent first).  `none`: some call never returns. -/
def runCalls : osMemoryPoolId_t × List Ptr → List PoolCall →
    Option (osMemoryPoolId_t × List Ptr)
  | st, [] => some st
  | (mp_id, live), PoolCall.alloc tenv timeout :: cs =>
    match osMemoryPoolAlloc tenv mp_id timeout with
    | none => none
    | some (block, mp_id') =>
      runCalls (mp_id', if block != NULL then block :: live else live) cs
  | (mp_id, live), PoolCall.free block :: cs =>
    let r := osMemoryPoolFree mp_id block
    runCalls (r.2, if r.1 == osOK then live.erase block else live) cs

/-- The addresses of the slots whose flag is set, in index order; `addr` gives the address of
a slot and `idx` is the index of the first flag of the list. -/
def usedAddrsFrom (addr : Nat → Ptr) : List Bool → Nat → List Ptr
  | [], _ => []
  | b :: bs, idx =>
    if b then addr idx :: usedAddrsFrom addr bs (idx + 1) else usedAddrsFrom addr bs (idx + 1)

/-- The addresses of the slots of a pool that are in use. -/
def usedAddrs (p : cmsisPosix_memoryPoolHandler_t) : List Ptr :=
  usedAddrsFrom (slotAddr p) p.used_flags 0

/-- The predicate of the specification on gate and flags: the semaphore counter equals
`block_count` minus the number of set flags, and that number lies between `0` and
`block_count`. -/
def GateFlagInv (p : cmsisPosix_memoryPoolHandler_t) : Prop :=
  p.sem = p.block_count - p.used_flags.count true ∧
    0 ≤ p.used_flags.count true ∧ p.used_flags.count true ≤ p.block_count

/-- The padded size in the words of the specification: `4 * ceil(block_size / 4)`, over the
rationals. -/
def paddedSpec (block_size : Nat) : Nat := 4 * ⌈(block_size : ℚ) / 4⌉₊

/-- An environment in which every acquisition succeeds and the arena is placed at address
`4096`. -/
def envOK : AllocEnv :=
  { malloc_handler := true
    sem_init := true
    pthread_mutex_init := true
    calloc_flags := true
    malloc_arena := fun _ => 4096 }

/-- A clock reading and tick length (one millisecond per tick). -/
def tenvMs : TimeEnv :=
  { CP_CONFIG_NANO_IN_TICK := 1000000
    clock_gettime := { tv_sec := 100, tv_nsec := 5 } }

/-- The pool of `osMemoryPoolNew(4, 10, NULL)` after one allocation and with slot 0 taken. -/
def poolOneUsed : cmsisPosix_memoryPoolHandler_t :=
  { name := none, block_count := 4, block_size := 10, padded_block_size := 12,
    arena := 4096, sem := 3, used_flags := [true, false, false, false] }

/-- Creation attributes carrying the name `"pool"`. -/
def attrNamed : osMemoryPoolAttr_t := { name := some "pool" }

/-- The pool of `osMemoryPoolNew(4, 10, &attrNamed)`, all slots free. -/
def poolNamed : cmsisPosix_memoryPoolHandler_t :=
  { name := some "pool", block_count := 4, block_size := 10, padded_block_size := 12,
    arena := 4096, sem := 4, used_flags := [false, false, false, false] }

/-- The pool of `osMemoryPoolNew(2, 10, NULL)` with both slots taken. -/
def poolFull : cmsisPosix_memoryPoolHandler_t :=
  { name := none, block_count := 2, block_size := 10, padded_block_size := 12,
    arena := 4096, sem := 0, used_flags := [true, true] }

/-- The pool of `osMemoryPoolNew(3, 2147483648, NULL)` after two allocations: slots 0 and 1
are in use, slot 2 is the lowest free slot. -/
def poolWrapped : cmsisPosix_memoryPoolHandler_t :=
  { name := none, block_count := 3, block_size := 2147483648,
    padded_block_size := 2147483648, arena := 4096, sem := 1,
    used_flags := [true, true, false] }

/-- A flag list with a clear flag at `k` has a lowest clear flag, at or below `k`. -/
theorem exists_lowest_free (l : List Bool) (k : Nat) (h : l[k]? = some false) :
    ∃ i : Nat, i ≤ k ∧ l[i]? = some false ∧ ∀ j : Nat, j < i → l[j]? = some true := by
  have hex : ∃ i : Nat, l[i]? = some false := ⟨k, h⟩
  classical
  refine ⟨Nat.find hex, Nat.find_min' hex h, Nat.find_spec hex, ?_⟩
  intro j (hj : j < Nat.find hex)
  have hne : l[j]? ≠ some false := Nat.find_min hex hj
  have hlen : Nat.find hex < l.length := by
    rcases List.getElem?_eq_some_iff.mp (Nat.find_spec hex) with ⟨h', _⟩
    exact h'
  have hjlen : j < l.length := by omega
  rw [List.getElem?_eq_getElem hjlen] at hne ⊢
  cases hb : l[j] with
  | true => rfl
  | false => rw [hb] at hne; exact absurd rfl hne

/-- A flag list with fewer set flags than entries has a clear flag. -/
theorem exists_free_of_count_lt (l : List Bool) (h : l.count true < l.length) :
    ∃ k : Nat, l[k]? = some false := by
  by_contra hcon
  have hall : ∀ b ∈ l, true = b := by
    intro b hb
    cases b with
    | true => rfl
    | false =>
      obtain ⟨n, hn⟩ := List.mem_iff_getElem?.mp hb
      exact absurd ⟨n, hn⟩ hcon
  have := List.count_eq_length.mpr hall
  omega

/-- Setting a clear flag raises the number of set flags by one. -/
theorem count_set_true (l : List Bool) (i : Nat) (h : l[i]? = some false) :
    (l.set i true).count true = l.count true + 1 := by
  rcases List.getElem?_eq_some_iff.mp h with ⟨hlen, hval⟩
  rw [List.count_set true true l i hlen]
  simp [hval]

/-- Clearing a set flag lowers the number of set flags by one. -/
theorem count_set_false (l : List Bool) (i : Nat) (h : l[i]? = some true) :
    (l.set i false).count true + 1 = l.count true := by
  rcases List.getElem?_eq_some_iff.mp h with ⟨hlen, hval⟩
  rw [List.count_set false true l i hlen]
  have hpos : 0 < l.count true := by
    apply List.count_pos_iff.mpr
    rw [← hval]
    exact List.getElem_mem hlen
  simp [hval]
  omega

/-! ## Behaviour of the two scans -/

/-- The allocation scan stops at the first index whose flag is `false`. -/
theorem allocScan_first (p : cmsisPosix_memoryPoolHandler_t) (i : Nat)
    (hfree : p.used_flags[i]? = some false) :
    ∀ n idx, idx ≤ i → i < idx + n →
      (∀ j, idx ≤ j → j < i → p.used_flags[j]? = some true) →
      allocScan p n idx = (slotAddr p i, p.used_flags.set i true) := by
  intro n
  induction n with
  | zero => intro idx h1 h2; omega
  | succ n ih =>
    intro idx h1 h2 hlow
    by_cases hidx : idx = i
    · subst hidx
      simp [allocScan, hfree]
    · have hlt : idx < i := by omega
      have hused := hlow idx (le_refl _) hlt
      simp only [allocScan, List.getD_eq_getElem?_getD, hused, Option.getD_some]
      simp only [Bool.not_true, Bool.false_eq_true, if_false]
      exact ih (idx + 1) (by omega) (by omega) (fun j hj hji => hlow j (by omega) hji)

/-- The allocation scan leaves `block` null and the flags as they are when every scanned
flag is set. -/
theorem allocScan_none (p : cmsisPosix_memoryPoolHandler_t) :
    ∀ n idx, (∀ j, idx ≤ j → j < idx + n → p.used_flags.getD j false = true) →
      allocScan p n idx = (NULL, p.used_flags) := by
  intro n
  induction n with
  | zero => intro idx _; rfl
  | succ n ih =>
    intro idx h
    have h0 := h idx (le_refl _) (by omega)
    simp only [allocScan, h0, Bool.not_true, Bool.false_eq_true, if_false]
    exact ih (idx + 1) (fun j hj hjn => h j (by omega) (by omega))

/-- The release scan clears the first in-use slot found at the given address. -/
theorem freeScan_first (p : cmsisPosix_memoryPoolHandler_t) (block : Ptr) (i : Nat)
    (haddr : block = slotAddr p i) (hused : p.used_flags.getD i false = true) :
    ∀ n idx, idx ≤ i → i < idx + n →
      (∀ j, idx ≤ j → j < i → block = slotAddr p j → p.used_flags.getD j false = false) →
      freeScan p block n idx = (osOK, p.used_flags.set i false) := by
  intro n
  induction n with
  | zero => intro idx h1 h2; omega
  | succ n ih =>
    intro idx h1 h2 hlow
    by_cases hidx : idx = i
    · subst hidx
      simp only [freeScan, beq_iff_eq, haddr, hused, if_true]
    · have hlt : idx < i := by omega
      have hrec := ih (idx + 1) (by omega) (by omega)
        (fun j hj hji => hlow j (by omega) hji)
      by_cases hb : block = slotAddr p idx
      · have h0 := hlow idx (le_refl _) hlt hb
        simp only [freeScan, h0, Bool.false_eq_true, if_false]
        simp only [hrec, ite_self]
      · simp only [freeScan, beq_iff_eq, hb, if_false]
        exact hrec

/-- The release scan either fails with the flags untouched, or succeeds having cleared one
set flag. -/
theorem freeScan_cases (p : cmsisPosix_memoryPoolHandler_t) (block : Ptr) :
    ∀ n idx, freeScan p block n idx = (osErrorParameter, p.used_flags) ∨
      ∃ i, idx ≤ i ∧ i < idx + n ∧ block = slotAddr p i ∧ p.used_flags[i]? = some true ∧
        freeScan p block n idx = (osOK, p.used_flags.set i false) := by
  intro n
  induction n with
  | zero => intro idx; exact Or.inl rfl
  | succ n ih =>
    intro idx
    have hrec : freeScan p block n (idx + 1) = (osErrorParameter, p.used_flags) ∨
        ∃ i, idx ≤ i ∧ i < idx + (n + 1) ∧ block = slotAddr p i ∧
          p.used_flags[i]? = some true ∧
          freeScan p block n (idx + 1) = (osOK, p.used_flags.set i false) := by
      rcases ih (idx + 1) with h | ⟨i, h1, h2, h3, h4, h5⟩
      · exact Or.inl h
      · exact Or.inr ⟨i, by omega, by omega, h3, h4, h5⟩
    by_cases hb : block = slotAddr p idx
    · cases hu : p.used_flags.getD idx false with
      | true =>
        right
        refine ⟨idx, le_refl _, by omega, hb, ?_, ?_⟩
        · rw [List.getD_eq_getElem?_getD] at hu
          cases hl : p.used_flags[idx]? with
          | none => rw [hl] at hu; simp at hu
          | some b => rw [hl] at hu; simp at hu; rw [hu]
        · simp only [freeScan, beq_iff_eq, hb, hu, if_true]
      | false =>
        have hstep : freeScan p block (n + 1) idx = freeScan p block n (idx + 1) := by
          simp only [freeScan, hu, Bool.false_eq_true, if_false, ite_self]
        rw [hstep]
        exact hrec
    · have hstep : freeScan p block (n + 1) idx = freeScan p block n (idx + 1) := by
        simp only [freeScan, beq_iff_eq, hb, if_false]
      rw [hstep]
      exact hrec

/-! ## The calls in terms of the scans -/

/-- With a positive counter and lowest free slot `i`, `osMemoryPoolAlloc` returns the address
of slot `i` and the pool with the counter lowered and flag `i` set, whatever the timeout. -/
theorem alloc_eq_of_first_free (tenv : TimeEnv) (p : cmsisPosix_memoryPoolHandler_t)
    (timeout i : Nat) (hgate : 0 < p.sem) (hi : i < p.block_count)
    (hfree : p.used_flags[i]? = some false)
    (hmin : ∀ j, j < i → p.used_flags[j]? = some true) :
    osMemoryPoolAlloc tenv (some p) timeout
      = some (slotAddr p i,
          some { p with sem := p.sem - 1, used_flags := p.used_flags.set i true }) := by
  have hscan : allocScan p p.block_count 0 = (slotAddr p i, p.used_flags.set i true) :=
    allocScan_first p i hfree p.block_count 0 (Nat.zero_le _) (by omega)
      (fun j _ hj => hmin j hj)
  simp only [osMemoryPoolAlloc, sem_trywait, sem_wait, sem_timedwait, hgate, if_true, hscan]
  by_cases h0 : timeout = 0
  · simp [h0]
  · by_cases hf : timeout = osWaitForever
    · simp [h0, hf]
    · simp [h0, hf]

/-- With a zero counter, `osMemoryPoolAlloc` with any timeout other than `osWaitForever`
returns null and the pool as it was. -/
theorem alloc_eq_of_gate_zero (tenv : TimeEnv) (p : cmsisPosix_memoryPoolHandler_t)
    (timeout : Nat) (hgate : p.sem = 0) (hto : timeout ≠ osWaitForever) :
    osMemoryPoolAlloc tenv (some p) timeout = some (NULL, some p) := by
  have hp : { p with sem := 0 } = p := by
    cases p
    simp only [cmsisPosix_memoryPoolHandler_t.mk.injEq, true_and, and_true]
    exact hgate.symm
  simp only [osMemoryPoolAlloc, sem_trywait, sem_wait, sem_timedwait, hgate,
    Nat.lt_irrefl, if_false]
  by_cases h0 : timeout = 0
  · simp [h0, hp]
  · simp [h0, hto, hp]

/-- With a zero counter, `osMemoryPoolAlloc` with timeout `osWaitForever` never returns. -/
theorem alloc_eq_of_gate_zero_forever (tenv : TimeEnv) (p : cmsisPosix_memoryPoolHandler_t)
    (hgate : p.sem = 0) :
    osMemoryPoolAlloc tenv (some p) osWaitForever = none := by
  simp [osMemoryPoolAlloc, sem_wait, hgate, osWaitForever]

/-- The result of `osMemoryPoolFree` on a non-null handle, in terms of the scan. -/
theorem free_eq_of_scan (p : cmsisPosix_memoryPoolHandler_t) (block : Ptr)
    (status : osStatus_t) (flags : List Bool)
    (h : freeScan p block p.block_count 0 = (status, flags)) :
    osMemoryPoolFree (some p) block
      = (status, some { p with
          sem := if status = osOK then p.sem + 1 else p.sem, used_flags := flags }) := by
  simp [osMemoryPoolFree, h, sem_post]

/-- A freshly created pool satisfies the invariant. -/
theorem poolInv_new (env : AllocEnv) (block_count block_size : Nat)
    (attr : Option osMemoryPoolAttr_t) (p : cmsisPosix_memoryPoolHandler_t)
    (h : osMemoryPoolNew env block_count block_size attr = some p) : PoolInv p := by
  unfold osMemoryPoolNew at h
  split at h
  · exact absurd h (by simp)
  · split at h
    · exact absurd h (by simp)
    · split at h
      · exact absurd h (by simp)
      · split at h
        · exact absurd h (by simp)
        · by_cases hc : env.calloc_flags = true
          · simp only [hc, if_true] at h
            split at h
            · exact absurd h (by simp)
            · simp only [Option.some.injEq] at h
              subst h
              refine ⟨by simp, ?_⟩
              show block_count + (List.replicate block_count false).count true = block_count
              rw [List.count_replicate]
              simp
          · simp [hc] at h

/-- The invariant is kept by `osMemoryPoolAlloc`. -/
theorem poolInv_alloc (tenv : TimeEnv) (timeout : Nat) (block : Ptr)
    (p q : cmsisPosix_memoryPoolHandler_t) (hinv : PoolInv p)
    (h : osMemoryPoolAlloc tenv (some p) timeout = some (block, some q)) : PoolInv q := by
  obtain ⟨hlen, hcnt⟩ := hinv
  by_cases hgate : 0 < p.sem
  · have hlt : p.used_flags.count true < p.used_flags.length := by omega
    obtain ⟨k, hk⟩ := exists_free_of_count_lt p.used_flags hlt
    obtain ⟨i, _, hfree, hmin⟩ := exists_lowest_free p.used_flags k hk
    have hilen : i < p.used_flags.length := by
      rcases List.getElem?_eq_some_iff.mp hfree with ⟨h', _⟩
      exact h'
    rw [alloc_eq_of_first_free tenv p timeout i hgate (by omega) hfree hmin] at h
    simp only [Option.some.injEq, Prod.mk.injEq] at h
    obtain ⟨_, hq⟩ := h
    subst hq
    refine ⟨by simpa using hlen, ?_⟩
    show p.sem - 1 + (p.used_flags.set i true).count true = p.block_count
    rw [count_set_true _ _ hfree]
    omega
  · have hzero : p.sem = 0 := by omega
    by_cases hto : timeout = osWaitForever
    · rw [hto, alloc_eq_of_gate_zero_forever tenv p hzero] at h
      exact absurd h (by simp)
    · rw [alloc_eq_of_gate_zero tenv p timeout hzero hto] at h
      simp only [Option.some.injEq, Prod.mk.injEq] at h
      obtain ⟨_, hq⟩ := h
      subst hq
      exact ⟨hlen, hcnt⟩

/-- The invariant is kept by `osMemoryPoolFree`. -/
theorem poolInv_free (block : Ptr) (status : osStatus_t)
    (p q : cmsisPosix_memoryPoolHandler_t) (hinv : PoolInv p)
    (h : osMemoryPoolFree (some p) block = (status, some q)) : PoolInv q := by
  obtain ⟨hlen, hcnt⟩ := hinv
  rcases freeScan_cases p block p.block_count 0 with hs | ⟨i, _, _, _, hused, hs⟩
  · rw [free_eq_of_scan p block _ _ hs] at h
    simp only [Prod.mk.injEq, Option.some.injEq] at h
    obtain ⟨_, hq⟩ := h
    subst hq
    exact ⟨hlen, by simpa using hcnt⟩
  · rw [free_eq_of_scan p block _ _ hs] at h
    simp only [Prod.mk.injEq, Option.some.injEq] at h
    obtain ⟨_, hq⟩ := h
    subst hq
    refine ⟨by simpa using hlen, ?_⟩
    show (if osOK = osOK then p.sem + 1 else p.sem) + (p.used_flags.set i false).count true
      = p.block_count
    have := count_set_false _ _ hused
    simp only [if_true]
    omega

/-- Every reachable pool state satisfies the invariant. -/
theorem reachable_poolInv (p : cmsisPosix_memoryPoolHandler_t) (h : Reachable p) :
    PoolInv p := by
  induction h with
  | created env bc bs attr p hnew => exact poolInv_new env bc bs attr p hnew
  | alloc tenv timeout block p q _ hcall ih => exact poolInv_alloc tenv timeout block p q ih hcall
  | free block status p q _ hcall ih => exact poolInv_free block status p q ih hcall

/-- The pool `poolOneUsed` is reached by creating a pool of 4 blocks of 10 bytes and
allocating once. -/
theorem reachable_poolOneUsed : Reachable poolOneUsed :=
  Reachable.alloc tenvMs 0 4096
    { name := none, block_count := 4, block_size := 10, padded_block_size := 12,
      arena := 4096, sem := 4, used_flags := [false, false, false, false] }
    poolOneUsed
    (Reachable.created envOK 4 10 none _ (by decide)) (by decide)

/-- The pool `poolFull` is reached by creating a pool of 2 blocks of 10 bytes and allocating
twice. -/
theorem reachable_poolFull : Reachable poolFull :=
  Reachable.alloc tenvMs 0 4108
    { name := none, block_count := 2, block_size := 10, padded_block_size := 12,
      arena := 4096, sem := 1, used_flags := [true, false] }
    poolFull
    (Reachable.alloc tenvMs 0 4096
      { name := none, block_count := 2, block_size := 10, padded_block_size := 12,
        arena := 4096, sem := 2, used_flags := [false, false] }
      _ (Reachable.created envOK 2 10 none _ (by decide)) (by decide))
    (by decide)

/-! ## Padding of the block size and slot addresses -/

/-- The ceiling of the specification is the usual round-up division. -/
theorem paddedSpec_eq (block_size : Nat) : paddedSpec block_size = 4 * ((block_size + 3) / 4) := by
  unfold paddedSpec
  congr 1
  by_cases h0 : block_size = 0
  · subst h0
    simp
  · have hk : (block_size + 3) / 4 ≠ 0 := by omega
    rw [Nat.ceil_eq_iff hk]
    have h1 : 4 * ((block_size + 3) / 4 - 1) < block_size := by omega
    have h2 : block_size ≤ 4 * ((block_size + 3) / 4) := by omega
    have h1q : ((4 * ((block_size + 3) / 4 - 1) : ℕ) : ℚ) < (block_size : ℚ) := by
      exact_mod_cast h1
    have h2q : (block_size : ℚ) ≤ ((4 * ((block_size + 3) / 4) : ℕ) : ℚ) := by
      exact_mod_cast h2
    push_cast at h1q h2q
    constructor
    · linarith
    · linarith

/-- Up to `2 ^ 32 - 4` the 32-bit padding expression is the round-up of the specification. -/
theorem padBlockSize_eq_paddedSpec (block_size : Nat) (h : block_size ≤ 4294967292) :
    padBlockSize block_size = paddedSpec block_size := by
  rw [paddedSpec_eq]
  unfold padBlockSize U32
  omega

/-- The padded size is always a multiple of 4. -/
theorem padBlockSize_mod_four (block_size : Nat) : padBlockSize block_size % 4 = 0 := by
  unfold padBlockSize U32
  omega

/-- When the padded size is a multiple of 4, so is the offset of every slot address. -/
theorem slotAddr_offset_mod_four (p : cmsisPosix_memoryPoolHandler_t) (idx : Nat)
    (h : p.padded_block_size % 4 = 0) : (slotAddr p idx - p.arena) % 4 = 0 := by
  unfold slotAddr U32
  have h4 : (idx * p.padded_block_size) % 4 = 0 := by
    rw [Nat.mul_mod, h]
    simp
  rw [Nat.add_sub_cancel_left]
  exact (Nat.dvd_mod_iff (by decide : 4 ∣ 4294967296)).mpr (Nat.dvd_of_mod_eq_zero h4)
    |> Nat.mod_eq_zero_of_dvd

/-- Without 32-bit wrap-around the offset of a slot address is a multiple of the padded
size. -/
theorem slotAddr_offset_mod_padded (p : cmsisPosix_memoryPoolHandler_t) (idx : Nat)
    (h : idx * p.padded_block_size < U32) :
    (slotAddr p idx - p.arena) % p.padded_block_size = 0 := by
  unfold slotAddr
  rw [Nat.mod_eq_of_lt h, Nat.add_sub_cancel_left]
  exact Nat.mul_mod_left _ _

/-- Without 32-bit wrap-around and with a non-zero padded size, distinct slots have distinct
addresses. -/
theorem slotAddr_injective (p : cmsisPosix_memoryPoolHandler_t) (i j : Nat)
    (hpos : 0 < p.padded_block_size) (hsmall : p.block_count * p.padded_block_size < U32)
    (hi : i < p.block_count) (hj : j < p.block_count) (h : slotAddr p i = slotAddr p j) :
    i = j := by
  unfold slotAddr at h
  have hi' : i * p.padded_block_size < U32 :=
    lt_of_le_of_lt (Nat.mul_le_mul_right _ (le_of_lt hi)) hsmall
  have hj' : j * p.padded_block_size < U32 :=
    lt_of_le_of_lt (Nat.mul_le_mul_right _ (le_of_lt hj)) hsmall
  rw [Nat.mod_eq_of_lt hi', Nat.mod_eq_of_lt hj'] at h
  exact Nat.eq_of_mul_eq_mul_right hpos (Nat.add_left_cancel h)

/-! ## Live addresses along an execution -/

/-- What a successful `osMemoryPoolNew` stores in the control block. -/
theorem osMemoryPoolNew_some (env : AllocEnv) (block_count block_size : Nat)
    (attr : Option osMemoryPoolAttr_t) (p : cmsisPosix_memoryPoolHandler_t)
    (h : osMemoryPoolNew env block_count block_size attr = some p) :
    block_count ≠ 0 ∧ block_size ≠ 0 ∧
    p.block_count = block_count ∧ p.block_size = block_size ∧
    p.padded_block_size = padBlockSize block_size ∧
    p.arena = env.malloc_arena (arenaBytes block_count (padBlockSize block_size)) ∧
    p.arena ≠ NULL ∧ p.sem = block_count ∧
    p.used_flags = List.replicate block_count false ∧
    p.name = attr.bind (fun a => a.name) := by
  unfold osMemoryPoolNew at h
  split at h
  · exact absurd h (by simp)
  · rename_i hz
    split at h
    · exact absurd h (by simp)
    · split at h
      · exact absurd h (by simp)
      · split at h
        · exact absurd h (by simp)
        · by_cases hc : env.calloc_flags = true
          · simp only [hc, if_true] at h
            split at h
            · exact absurd h (by simp)
            · rename_i harena
              simp only [Option.some.injEq] at h
              subst h
              simp only [Bool.or_eq_true, beq_iff_eq, not_or] at hz
              refine ⟨hz.1, hz.2, rfl, rfl, rfl, rfl, ?_, rfl, rfl, ?_⟩
              · simpa using harena
              · cases attr <;> rfl
          · simp [hc] at h

/-- Slot addresses depend on the arena and the padded size only. -/
theorem slotAddr_congr (p q : cmsisPosix_memoryPoolHandler_t) (ha : q.arena = p.arena)
    (hp : q.padded_block_size = p.padded_block_size) : slotAddr q = slotAddr p := by
  funext i
  simp [slotAddr, ha, hp]

/-- There are as many in-use addresses as set flags. -/
theorem usedAddrsFrom_length (addr : Nat → Ptr) (l : List Bool) :
    ∀ idx, (usedAddrsFrom addr l idx).length = l.count true := by
  induction l with
  | nil => intro idx; rfl
  | cons b bs ih =>
    intro idx
    cases b with
    | true => simp [usedAddrsFrom, ih]
    | false => simp [usedAddrsFrom, ih]

/-- No address is in use when no flag is set. -/
theorem usedAddrsFrom_replicate_false (addr : Nat → Ptr) (n : Nat) :
    ∀ idx, usedAddrsFrom addr (List.replicate n false) idx = [] := by
  induction n with
  | zero => intro idx; rfl
  | succ n ih => intro idx; simp [List.replicate_succ, usedAddrsFrom, ih]

/-- Every in-use address is the address of a slot in the scanned range. -/
theorem mem_usedAddrsFrom (addr : Nat → Ptr) (a : Ptr) (l : List Bool) :
    ∀ idx, a ∈ usedAddrsFrom addr l idx →
      ∃ j, idx ≤ j ∧ j < idx + l.length ∧ a = addr j := by
  induction l with
  | nil => intro idx h; simp [usedAddrsFrom] at h
  | cons b bs ih =>
    intro idx h
    have hrec : a ∈ usedAddrsFrom addr bs (idx + 1) →
        ∃ j, idx ≤ j ∧ j < idx + (b :: bs).length ∧ a = addr j := by
      intro h'
      obtain ⟨j, h1, h2, h3⟩ := ih (idx + 1) h'
      exact ⟨j, by omega, by simp only [List.length_cons]; omega, h3⟩
    cases b with
    | true =>
      simp only [usedAddrsFrom, if_true, List.mem_cons] at h
      rcases h with h | h
      · exact ⟨idx, le_refl _, by simp, h⟩
      · exact hrec h
    | false =>
      simp only [usedAddrsFrom, Bool.false_eq_true, if_false] at h
      exact hrec h

/-- Setting a clear flag adds the address of its slot to the in-use addresses. -/
theorem usedAddrsFrom_set_true (addr : Nat → Ptr) (l : List Bool) :
    ∀ (i idx : Nat), l[i]? = some false →
      (usedAddrsFrom addr (l.set i true) idx).Perm (addr (idx + i) :: usedAddrsFrom addr l idx) := by
  induction l with
  | nil => intro i idx h; simp at h
  | cons b bs ih =>
    intro i idx h
    cases i with
    | zero =>
      simp only [List.getElem?_cons_zero, Option.some.injEq] at h
      subst h
      simp [usedAddrsFrom]
    | succ i =>
      simp only [List.getElem?_cons_succ] at h
      have hrec := ih i (idx + 1) h
      have hidx : idx + 1 + i = idx + (i + 1) := by omega
      rw [hidx] at hrec
      cases b with
      | true =>
        simp only [List.set_cons_succ, usedAddrsFrom, if_true]
        exact (List.Perm.cons _ hrec).trans (List.Perm.swap _ _ _)
      | false =>
        simp only [List.set_cons_succ, usedAddrsFrom, Bool.false_eq_true, if_false]
        exact hrec

/-- Clearing a set flag removes the address of its slot from the in-use addresses. -/
theorem usedAddrsFrom_set_false (addr : Nat → Ptr) (l : List Bool) :
    ∀ (i idx : Nat), l[i]? = some true →
      (usedAddrsFrom addr l idx).Perm (addr (idx + i) :: usedAddrsFrom addr (l.set i false) idx) := by
  induction l with
  | nil => intro i idx h; simp at h
  | cons b bs ih =>
    intro i idx h
    cases i with
    | zero =>
      simp only [List.getElem?_cons_zero, Option.some.injEq] at h
      subst h
      simp [usedAddrsFrom]
    | succ i =>
      simp only [List.getElem?_cons_succ] at h
      have hrec := ih i (idx + 1) h
      have hidx : idx + 1 + i = idx + (i + 1) := by omega
      rw [hidx] at hrec
      cases b with
      | true =>
        simp only [List.set_cons_succ, usedAddrsFrom, if_true]
        exact (List.Perm.cons _ hrec).trans (List.Perm.swap _ _ _)
      | false =>
        simp only [List.set_cons_succ, usedAddrsFrom, Bool.false_eq_true, if_false]
        exact hrec

/-- The in-use addresses are pairwise distinct when the address map is injective on the
scanned range. -/
theorem usedAddrsFrom_nodup (addr : Nat → Ptr) (l : List Bool) :
    ∀ idx, (∀ i j, idx ≤ i → i < idx + l.length → idx ≤ j → j < idx + l.length →
        addr i = addr j → i = j) →
      (usedAddrsFrom addr l idx).Nodup := by
  induction l with
  | nil => intro idx _; simp [usedAddrsFrom]
  | cons b bs ih =>
    intro idx hinj
    have hrec : (usedAddrsFrom addr bs (idx + 1)).Nodup := by
      apply ih (idx + 1)
      intro i j h1 h2 h3 h4 h5
      exact hinj i j (by omega) (by simp only [List.length_cons]; omega) (by omega)
        (by simp only [List.length_cons]; omega) h5
    cases b with
    | true =>
      simp only [usedAddrsFrom, if_true, List.nodup_cons]
      refine ⟨?_, hrec⟩
      intro hmem
      obtain ⟨j, h1, h2, h3⟩ := mem_usedAddrsFrom addr _ bs (idx + 1) hmem
      have := hinj idx j (le_refl _) (by simp) (by omega)
        (by simp only [List.length_cons]; omega) h3
      omega
    | false =>
      simp only [usedAddrsFrom, Bool.false_eq_true, if_false]
      exact hrec

/-- One returning `osMemoryPoolAlloc` call keeps the invariant, the fixed fields, and the
correspondence between live addresses and in-use slots. -/
theorem alloc_step_live (tenv : TimeEnv) (timeout : Nat) (p : cmsisPosix_memoryPoolHandler_t)
    (live : List Ptr) (block : Ptr) (mp : osMemoryPoolId_t)
    (hinv : PoolInv p) (harena : p.arena ≠ NULL) (hlive : live.Perm (usedAddrs p))
    (h : osMemoryPoolAlloc tenv (some p) timeout = some (block, mp)) :
    ∃ q, mp = some q ∧ PoolInv q ∧ q.block_count = p.block_count ∧ q.arena = p.arena ∧
      q.padded_block_size = p.padded_block_size ∧
      (if block != NULL then block :: live else live).Perm (usedAddrs q) := by
  by_cases hgate : 0 < p.sem
  · have hlt : p.used_flags.count true < p.used_flags.length := by
      obtain ⟨hlen, hcnt⟩ := hinv
      omega
    obtain ⟨k, hk⟩ := exists_free_of_count_lt p.used_flags hlt
    obtain ⟨i, _, hfree, hmin⟩ := exists_lowest_free p.used_flags k hk
    have hilen : i < p.used_flags.length := by
      rcases List.getElem?_eq_some_iff.mp hfree with ⟨h', _⟩
      exact h'
    have hi : i < p.block_count := by
      obtain ⟨hlen, _⟩ := hinv
      omega
    have hcall := alloc_eq_of_first_free tenv p timeout i hgate hi hfree hmin
    have hq : PoolInv { p with sem := p.sem - 1, used_flags := p.used_flags.set i true } :=
      poolInv_alloc tenv timeout _ p _ hinv hcall
    rw [hcall] at h
    simp only [Option.some.injEq, Prod.mk.injEq] at h
    obtain ⟨hb, hmp⟩ := h
    subst hb hmp
    refine ⟨_, rfl, hq, rfl, rfl, rfl, ?_⟩
    have hne : (slotAddr p i != NULL) = true := by
      have hpos : 0 < p.arena := Nat.pos_of_ne_zero harena
      exact bne_iff_ne.mpr
        (Nat.ne_of_gt (Nat.lt_of_lt_of_le hpos (Nat.le_add_right _ _)))
    rw [hne, if_pos rfl]
    have hperm := usedAddrsFrom_set_true (slotAddr p) p.used_flags i 0 hfree
    rw [Nat.zero_add] at hperm
    exact (List.Perm.cons _ hlive).trans hperm.symm
  · have hzero : p.sem = 0 := by omega
    by_cases hto : timeout = osWaitForever
    · rw [hto, alloc_eq_of_gate_zero_forever tenv p hzero] at h
      exact absurd h (by simp)
    · rw [alloc_eq_of_gate_zero tenv p timeout hzero hto] at h
      simp only [Option.some.injEq, Prod.mk.injEq] at h
      obtain ⟨hb, hmp⟩ := h
      subst hb hmp
      exact ⟨p, rfl, hinv, rfl, rfl, rfl, by simpa [NULL] using hlive⟩

/-- One `osMemoryPoolFree` call keeps the invariant, the fixed fields, and the correspondence
between live addresses and in-use slots. -/
theorem free_step_live (p : cmsisPosix_memoryPoolHandler_t) (live : List Ptr) (block : Ptr)
    (hinv : PoolInv p) (hlive : live.Perm (usedAddrs p)) :
    ∃ q, (osMemoryPoolFree (some p) block).2 = some q ∧ PoolInv q ∧
      q.block_count = p.block_count ∧ q.arena = p.arena ∧
      q.padded_block_size = p.padded_block_size ∧
      (if (osMemoryPoolFree (some p) block).1 == osOK then live.erase block else live).Perm
        (usedAddrs q) := by
  rcases freeScan_cases p block p.block_count 0 with hs | ⟨i, _, _, hb, hused, hs⟩
  · have hcall := free_eq_of_scan p block _ _ hs
    have hq := poolInv_free block _ p _ hinv hcall
    rw [hcall]
    refine ⟨_, rfl, hq, rfl, rfl, rfl, ?_⟩
    simpa [usedAddrs, slotAddr_congr] using hlive
  · have hcall := free_eq_of_scan p block _ _ hs
    have hq := poolInv_free block _ p _ hinv hcall
    rw [hcall]
    refine ⟨_, rfl, hq, rfl, rfl, rfl, ?_⟩
    have hperm := usedAddrsFrom_set_false (slotAddr p) p.used_flags i 0 hused
    rw [Nat.zero_add, ← hb] at hperm
    have h1 : (live.erase block).Perm
        ((block :: usedAddrsFrom (slotAddr p) (p.used_flags.set i false) 0).erase block) :=
      List.Perm.erase block (hlive.trans hperm)
    rw [List.erase_cons_head] at h1
    simpa using h1

/-- Along every execution that starts in a state satisfying the invariant, with a non-null
arena and live addresses matching the in-use slots, these three facts persist, the handle
stays non-null and `block_count`, `arena` and `padded_block_size` stay fixed. -/
theorem runCalls_live (calls : List PoolCall) :
    ∀ (p : cmsisPosix_memoryPoolHandler_t) (live : List Ptr),
      PoolInv p → p.arena ≠ NULL → live.Perm (usedAddrs p) →
      ∀ (mp : osMemoryPoolId_t) (live' : List Ptr),
        runCalls (some p, live) calls = some (mp, live') →
        ∃ q, mp = some q ∧ PoolInv q ∧ q.block_count = p.block_count ∧ q.arena = p.arena ∧
          q.padded_block_size = p.padded_block_size ∧ live'.Perm (usedAddrs q) := by
  induction calls with
  | nil =>
    intro p live hinv _ hlive mp live' h
    simp only [runCalls, Option.some.injEq, Prod.mk.injEq] at h
    obtain ⟨h1, h2⟩ := h
    subst h1 h2
    exact ⟨p, rfl, hinv, rfl, rfl, rfl, hlive⟩
  | cons c cs ih =>
    intro p live hinv harena hlive mp live' h
    cases c with
    | alloc tenv timeout =>
      simp only [runCalls] at h
      cases hcall : osMemoryPoolAlloc tenv (some p) timeout with
      | none => rw [hcall] at h; exact absurd h (by simp)
      | some r =>
        obtain ⟨block, mp1⟩ := r
        rw [hcall] at h
        obtain ⟨q, hq, hqinv, hbc, ha, hpad, hl⟩ :=
          alloc_step_live tenv timeout p live block mp1 hinv harena hlive hcall
        subst hq
        obtain ⟨q', h1, h2, h3, h4, h5, h6⟩ := ih q _ hqinv (by rw [ha]; exact harena) hl mp live' h
        exact ⟨q', h1, h2, by rw [h3, hbc], by rw [h4, ha], by rw [h5, hpad], h6⟩
    | free block =>
      simp only [runCalls] at h
      obtain ⟨q, hq, hqinv, hbc, ha, hpad, hl⟩ := free_step_live p live block hinv hlive
      rw [hq] at h
      obtain ⟨q', h1, h2, h3, h4, h5, h6⟩ := ih q _ hqinv (by rw [ha]; exact harena) hl mp live' h
      exact ⟨q', h1, h2, by rw [h3, hbc], by rw [h4, ha], by rw [h5, hpad], h6⟩

/-- Along every execution on a created pool the number of live addresses never exceeds
`block_count`. -/
theorem live_count_le_block_count (env : AllocEnv) (block_count block_size : Nat)
    (attr : Option osMemoryPoolAttr_t) (p : cmsisPosix_memoryPoolHandler_t)
    (calls : List PoolCall) (mp : osMemoryPoolId_t) (live : List Ptr)
    (hnew : osMemoryPoolNew env block_count block_size attr = some p)
    (hrun : runCalls (some p, []) calls = some (mp, live)) :
    live.length ≤ block_count := by
  obtain ⟨_, _, hbc, _, _, _, harena, _, hflags, _⟩ :=
    osMemoryPoolNew_some env block_count block_size attr p hnew
  have hstart : ([] : List Ptr).Perm (usedAddrs p) := by
    rw [usedAddrs, hflags, usedAddrsFrom_replicate_false]
  obtain ⟨q, _, ⟨hlen, hcnt⟩, hqbc, _, _, hperm⟩ :=
    runCalls_live calls p [] (poolInv_new env block_count block_size attr p hnew) harena hstart
      mp live hrun
  rw [hperm.length_eq, usedAddrs, usedAddrsFrom_length]
  omega

/-- Along every execution on a pool created without 32-bit wrap-around
(`block_count * padded_block_size < 2 ^ 32` and a non-zero padded size) the live addresses
are pairwise distinct. -/
theorem live_nodup_of_no_wrap (env : AllocEnv) (block_count block_size : Nat)
    (attr : Option osMemoryPoolAttr_t) (p : cmsisPosix_memoryPoolHandler_t)
    (calls : List PoolCall) (mp : osMemoryPoolId_t) (live : List Ptr)
    (hnew : osMemoryPoolNew env block_count block_size attr = some p)
    (hpos : 0 < padBlockSize block_size)
    (hsmall : block_count * padBlockSize block_size < U32)
    (hrun : runCalls (some p, []) calls = some (mp, live)) :
    live.Nodup := by
  obtain ⟨_, _, hbc, _, hpad, _, harena, _, hflags, _⟩ :=
    osMemoryPoolNew_some env block_count block_size attr p hnew
  have hstart : ([] : List Ptr).Perm (usedAddrs p) := by
    rw [usedAddrs, hflags, usedAddrsFrom_replicate_false]
  obtain ⟨q, _, ⟨hlen, hcnt⟩, hqbc, _, hqpad, hperm⟩ :=
    runCalls_live calls p [] (poolInv_new env block_count block_size attr p hnew) harena hstart
      mp live hrun
  refine hperm.nodup_iff.mpr ?_
  apply usedAddrsFrom_nodup
  intro i j _ hi _ hj hij
  exact slotAddr_injective q i j (by rw [hqpad, hpad]; exact hpos)
    (by rw [hqpad, hpad, hqbc, hbc]; exact hsmall) (by omega) (by omega) hij

/-! ## C1: allocation claims the lowest free slot -/

/-- What allocation does in every pool state whose semaphore counter is positive and in which
some slot is free, for every timeout value: with `i` the smallest index whose flag is
`false`, `osMemoryPoolAlloc` returns `arena` plus the `uint32_t` product
`i * padded_block_size`, which is `arena + i * padded_block_size` whenever that product is
below `2 ^ 32`; it sets flag `i`, leaves every other flag and field as it was, and lowers the
semaphore counter by exactly one. -/
theorem alloc_lowest_free_slot (tenv : TimeEnv) (p : cmsisPosix_memoryPoolHandler_t)
    (timeout : Nat) (hgate : 0 < p.sem)
    (hfree : ∃ k : Nat, k < p.block_count ∧ p.used_flags[k]? = some false) :
    ∃ (i : Nat) (q : cmsisPosix_memoryPoolHandler_t),
      i < p.block_count ∧ p.used_flags[i]? = some false ∧
      (∀ j : Nat, j < i → p.used_flags[j]? = some true) ∧
      osMemoryPoolAlloc tenv (some p) timeout
        = some (p.arena + (i * p.padded_block_size) % U32, some q) ∧
      (i * p.padded_block_size < U32 →
        osMemoryPoolAlloc tenv (some p) timeout
          = some (p.arena + i * p.padded_block_size, some q)) ∧
      q.used_flags[i]? = some true ∧
      (∀ j : Nat, j ≠ i → q.used_flags[j]? = p.used_flags[j]?) ∧
      q.used_flags.length = p.used_flags.length ∧
      q.sem + 1 = p.sem ∧
      q.name = p.name ∧ q.block_count = p.block_count ∧ q.block_size = p.block_size ∧
      q.padded_block_size = p.padded_block_size ∧ q.arena = p.arena := by
  obtain ⟨k, hk, hkfree⟩ := hfree
  obtain ⟨i, hik, hifree, hmin⟩ := exists_lowest_free p.used_flags k hkfree
  have hi : i < p.block_count := by omega
  have hilen : i < p.used_flags.length := by
    rcases List.getElem?_eq_some_iff.mp hifree with ⟨h, _⟩
    exact h
  have hcall : osMemoryPoolAlloc tenv (some p) timeout
      = some (p.arena + (i * p.padded_block_size) % U32,
          some { p with sem := p.sem - 1, used_flags := p.used_flags.set i true }) :=
    alloc_eq_of_first_free tenv p timeout i hgate hi hifree hmin
  refine ⟨i, { p with sem := p.sem - 1, used_flags := p.used_flags.set i true }, hi, hifree,
    hmin, hcall, ?_, ?_, ?_, ?_, ?_, rfl, rfl, rfl, rfl, rfl⟩
  · intro hsmall
    rw [hcall, Nat.mod_eq_of_lt hsmall]
  · simp [List.getElem?_set_self hilen]
  · intro j hj
    simp [List.getElem?_set_ne (Ne.symm hj)]
  · simp
  · show p.sem - 1 + 1 = p.sem
    omega

/-- Concrete instance: an allocation on `poolOneUsed` (slot 0 in use, counter 3), with the
free slot 2 as evidence that a slot is free. -/
theorem alloc_lowest_free_slot_poolOneUsed :
    ∃ (i : Nat) (q : cmsisPosix_memoryPoolHandler_t),
      i < poolOneUsed.block_count ∧ poolOneUsed.used_flags[i]? = some false ∧
      (∀ j : Nat, j < i → poolOneUsed.used_flags[j]? = some true) ∧
      osMemoryPoolAlloc tenvMs (some poolOneUsed) 0
        = some (poolOneUsed.arena + (i * poolOneUsed.padded_block_size) % U32, some q) ∧
      (i * poolOneUsed.padded_block_size < U32 →
        osMemoryPoolAlloc tenvMs (some poolOneUsed) 0
          = some (poolOneUsed.arena + i * poolOneUsed.padded_block_size, some q)) ∧
      q.used_flags[i]? = some true ∧
      (∀ j : Nat, j ≠ i → q.used_flags[j]? = poolOneUsed.used_flags[j]?) ∧
      q.used_flags.length = poolOneUsed.used_flags.length ∧
      q.sem + 1 = poolOneUsed.sem ∧
      q.name = poolOneUsed.name ∧ q.block_count = poolOneUsed.block_count ∧
      q.block_size = poolOneUsed.block_size ∧
      q.padded_block_size = poolOneUsed.padded_block_size ∧ q.arena = poolOneUsed.arena :=
  alloc_lowest_free_slot tenvMs poolOneUsed 0 (by decide) ⟨2, by decide, by decide⟩

/-- C1 fails in `poolWrapped`, the state reached by `osMemoryPoolNew(3, 2147483648, NULL)` and
two allocations: the counter is 1 and the smallest index with a clear flag is 2, so the claim
asks for `arena + 2 * padded_block_size = 4294971392`; the `uint32_t` product
`2 * 2147483648` wraps to `0` and `osMemoryPoolAlloc` returns `arena = 4096`.  Flag 2 is set,
the other flags are unchanged and the counter drops by one, as the claim says. -/
theorem alloc_address_wraps :
    runCalls (osMemoryPoolNew envOK 3 2147483648 none, [])
        [PoolCall.alloc tenvMs 0, PoolCall.alloc tenvMs 0]
      = some (some poolWrapped, [2147487744, 4096]) ∧
    0 < poolWrapped.sem ∧
    poolWrapped.used_flags[2]? = some false ∧
    poolWrapped.used_flags[0]? = some true ∧ poolWrapped.used_flags[1]? = some true ∧
    osMemoryPoolAlloc tenvMs (some poolWrapped) 0
      = some (4096, some { poolWrapped with sem := 0, used_flags := [true, true, true] }) ∧
    poolWrapped.arena + 2 * poolWrapped.padded_block_size = 4294971392 ∧
    osMemoryPoolAlloc tenvMs (some poolWrapped) 0
      ≠ some (poolWrapped.arena + 2 * poolWrapped.padded_block_size,
          some { poolWrapped with sem := 0, used_flags := [true, true, true] }) := by
  refine ⟨by decide, by decide, by decide, by decide, by decide, by decide, by decide,
    by decide⟩

/-! ## C2: live allocations -/

/-- C2 fails for `osMemoryPoolNew(3, 2147483648, NULL)`: after three allocations the live
addresses are `arena`, `arena + 2147483648` and `arena` again, because the 32-bit product
`2 * 2147483648` wraps to `0`; two live allocations share an address (their number, 3, does
not exceed `block_count`). -/
theorem live_allocations_share_address :
    runCalls (osMemoryPoolNew envOK 3 2147483648 none, [])
        [PoolCall.alloc tenvMs 0, PoolCall.alloc tenvMs 0, PoolCall.alloc tenvMs 0]
      = some (some { name := none, block_count := 3, block_size := 2147483648,
                     padded_block_size := 2147483648, arena := 4096, sem := 0,
                     used_flags := [true, true, true] },
              [4096, 2147487744, 4096]) ∧
    ¬ List.Nodup [4096, 2147487744, 4096] ∧
    List.length [4096, 2147487744, 4096] ≤ 3 := by
  refine ⟨by decide, by decide, by decide⟩

/-! ## C3: padded block size -/

/-- C3 fails at `block_size = 4294967295`: the specification asks for
`4 * ceil(4294967295 / 4) = 4294967296`, while the 32-bit sum `block_size + 3` wraps to `2`
and `osMemoryPoolNew` stores `padded_block_size = 0`, which is smaller than `block_size`. -/
theorem padded_block_size_wraps :
    paddedSpec 4294967295 = 4294967296 ∧
    padBlockSize 4294967295 = 0 ∧
    osMemoryPoolNew envOK 1 4294967295 none
      = some { name := none, block_count := 1, block_size := 4294967295,
               padded_block_size := 0, arena := 4096, sem := 1, used_flags := [false] } ∧
    padBlockSize 4294967295 < 4294967295 := by
  refine ⟨?_, by decide, by decide, by decide⟩
  rw [paddedSpec_eq]

/-! ## C4: offsets of returned addresses -/

/-- C4 fails for `osMemoryPoolNew(3, 3221225472, NULL)`: the padded size is `3221225472`, the
third allocation returns `arena + 2147483648` because the 32-bit product `2 * 3221225472`
wraps, and that offset is not a multiple of the padded size (it is a multiple of 4). -/
theorem alloc_offset_not_multiple_of_padded :
    runCalls (osMemoryPoolNew envOK 3 3221225472 none, [])
        [PoolCall.alloc tenvMs 0, PoolCall.alloc tenvMs 0, PoolCall.alloc tenvMs 0]
      = some (some { name := none, block_count := 3, block_size := 3221225472,
                     padded_block_size := 3221225472, arena := 4096, sem := 0,
                     used_flags := [true, true, true] },
              [2147487744, 3221229568, 4096]) ∧
    (2147487744 - 4096) % 3221225472 = 2147483648 ∧
    (2147487744 - 4096) % 3221225472 ≠ 0 ∧
    (2147487744 - 4096) % 4 = 0 := by
  refine ⟨by decide, by decide, by decide, by decide⟩

/-! ## C5, C6: release -/

/-- C7: in every reachable pool state in which all slots are in use, `osMemoryPoolAlloc`
with timeout `0` (non-blocking), and with any bounded timeout (neither `0` nor
`osWaitForever`; its timed wait elapses because the counter is zero), returns null and
leaves the pool, in particular the flags and the semaphore counter, unchanged. -/
theorem alloc_full_pool_fails (tenv : TimeEnv) (p : cmsisPosix_memoryPoolHandler_t)
    (timeout : Nat) (hreach : Reachable p)
    (hfull : ∀ i, i < p.block_count → p.used_flags[i]? = some true)
    (hto : timeout ≠ osWaitForever) :
    p.sem = 0 ∧
    sem_trywait p.sem = (-1, p.sem) ∧
    sem_timedwait p.sem (cp_timeoutToTimespec tenv timeout) = (-1, p.sem) ∧
    osMemoryPoolAlloc tenv (some p) timeout = some (NULL, some p) := by
  obtain ⟨hlen, hcnt⟩ := reachable_poolInv p hreach
  have hall : ∀ b ∈ p.used_flags, true = b := by
    intro b hb
    obtain ⟨n, hn⟩ := List.mem_iff_getElem?.mp hb
    have hnlen : n < p.used_flags.length := by
      rcases List.getElem?_eq_some_iff.mp hn with ⟨h', _⟩
      exact h'
    have := hfull n (by omega)
    rw [hn] at this
    simpa using this.symm
  have hcount : p.used_flags.count true = p.used_flags.length :=
    List.count_eq_length.mpr hall
  have hzero : p.sem = 0 := by omega
  refine ⟨hzero, ?_, ?_, alloc_eq_of_gate_zero tenv p timeout hzero hto⟩
  · simp [sem_trywait, hzero]
  · simp [sem_timedwait, hzero]

/-- Concrete instance: a non-blocking allocation on the full pool `poolFull`. -/
theorem alloc_full_pool_fails_witness :
    Reachable poolFull ∧
    (poolFull.sem = 0 ∧
    sem_trywait poolFull.sem = (-1, poolFull.sem) ∧
    sem_timedwait poolFull.sem (cp_timeoutToTimespec tenvMs 0) = (-1, poolFull.sem) ∧
    osMemoryPoolAlloc tenvMs (some poolFull) 0 = some (NULL, some poolFull)) :=
  ⟨reachable_poolFull,
    alloc_full_pool_fails tenvMs poolFull 0 reachable_poolFull
      (by intro i hi; have hi2 : i < 2 := hi; interval_cases i <;> decide) (by decide)⟩

/-! ## C8, C9, C10: null handles and creation -/

/-- C8 fails for `osMemoryPoolGetName`: on a null handle it reads `mem_pool->name` through the
null pointer (its null check holds the statement `NULL;` in place of `return NULL;`); the
other four queries return `0` on a null handle. -/
theorem getName_null_handle_dereferences :
    osMemoryPoolGetName none = Except.error Fault.nullDereference ∧
    osMemoryPoolGetName none ≠ Except.ok none ∧
    osMemoryPoolGetCapacity none = 0 ∧
    osMemoryPoolGetBlockSize none = 0 ∧
    osMemoryPoolGetCount none = 0 ∧
    osMemoryPoolGetSpace none = 0 := by
  refine ⟨rfl, by simp [osMemoryPoolGetName], rfl, rfl, rfl, rfl⟩

/-- C9: on a null handle `osMemoryPoolAlloc` returns null for every timeout,
`osMemoryPoolFree` returns `osErrorParameter` for every pointer and `osMemoryPoolDelete`
returns `osErrorParameter`, each leaving the handle null (no pool is touched); on every
non-null handle `osMemoryPoolDelete` returns `osOK`. -/
theorem null_handle_calls_fail :
    (∀ (tenv : TimeEnv) (timeout : Nat),
      osMemoryPoolAlloc tenv none timeout = some (NULL, none)) ∧
    (∀ block : Ptr, osMemoryPoolFree none block = (osErrorParameter, none)) ∧
    osMemoryPoolDelete none = (osErrorParameter, none) ∧
    (∀ p : cmsisPosix_memoryPoolHandler_t, (osMemoryPoolDelete (some p)).1 = osOK) :=
  ⟨fun _ _ => rfl, fun _ => rfl, rfl, fun _ => rfl⟩

/-- C10: `osMemoryPoolNew` returns the null handle whenever `block_count` or `block_size` is
zero, whatever the other arguments and the environment; and when every resource acquisition
succeeds it returns a non-null handle for every non-zero `block_count` and `block_size`. -/
theorem new_null_iff_zero_argument (env : AllocEnv) (block_count block_size : Nat)
    (attr : Option osMemoryPoolAttr_t) :
    (block_count = 0 ∨ block_size = 0 → osMemoryPoolNew env block_count block_size attr = none) ∧
    (block_count ≠ 0 → block_size ≠ 0 → env.allSucceed block_count block_size →
      ∃ p, osMemoryPoolNew env block_count block_size attr = some p) := by
  constructor
  · intro h
    unfold osMemoryPoolNew
    rcases h with h | h
    · simp [h]
    · simp [h]
  · intro hc hs hall
    obtain ⟨h1, h2, h3, h4, h5⟩ := hall
    unfold osMemoryPoolNew
    simp [hc, hs, h1, h2, h3, h4, h5]

/-- Concrete instance: a zero block count gives the null handle; 4 blocks of 10 bytes in
`envOK` give a pool. -/
theorem new_null_iff_zero_argument_witness :
    osMemoryPoolNew envOK 0 10 none = none ∧
    ∃ p, osMemoryPoolNew envOK 4 10 none = some p :=
  ⟨(new_null_iff_zero_argument envOK 0 10 none).1 (Or.inl rfl),
    (new_null_iff_zero_argument envOK 4 10 none).2 (by decide) (by decide)
      ⟨rfl, rfl, rfl, rfl, by decide⟩⟩

/-! ## C11: the fixed fields -/

/-- A returning `osMemoryPoolAlloc` call on a non-null handle returns a non-null handle whose
name, block count, block size, padded size and arena are those before the call. -/
theorem alloc_frame (tenv : TimeEnv) (timeout : Nat) (p : cmsisPosix_memoryPoolHandler_t)
    (block : Ptr) (mp : osMemoryPoolId_t)
    (h : osMemoryPoolAlloc tenv (some p) timeout = some (block, mp)) :
    ∃ q, mp = some q ∧ q.name = p.name ∧ q.block_count = p.block_count ∧
      q.block_size = p.block_size ∧ q.padded_block_size = p.padded_block_size ∧
      q.arena = p.arena := by
  unfold osMemoryPoolAlloc at h
  simp only at h
  split at h
  · exact absurd h (by simp)
  · split at h
    · simp only [Option.some.injEq, Prod.mk.injEq] at h
      obtain ⟨_, hmp⟩ := h
      exact ⟨_, hmp.symm, rfl, rfl, rfl, rfl, rfl⟩
    · simp only [Option.some.injEq, Prod.mk.injEq] at h
      obtain ⟨_, hmp⟩ := h
      exact ⟨_, hmp.symm, rfl, rfl, rfl, rfl, rfl⟩

/-- An `osMemoryPoolFree` call on a non-null handle returns a non-null handle whose name,
block count, block size, padded size and arena are those before the call. -/
theorem free_frame (p : cmsisPosix_memoryPoolHandler_t) (block : Ptr) :
    ∃ q, (osMemoryPoolFree (some p) block).2 = some q ∧ q.name = p.name ∧
      q.block_count = p.block_count ∧ q.block_size = p.block_size ∧
      q.padded_block_size = p.padded_block_size ∧ q.arena = p.arena :=
  ⟨_, rfl, rfl, rfl, rfl, rfl, rfl⟩

/-- Along every execution the handle stays non-null and the fixed fields keep their values. -/
theorem runCalls_frame (calls : List PoolCall) :
    ∀ (p : cmsisPosix_memoryPoolHandler_t) (live : List Ptr) (mp : osMemoryPoolId_t)
      (live' : List Ptr), runCalls (some p, live) calls = some (mp, live') →
      ∃ q, mp = some q ∧ q.name = p.name ∧ q.block_count = p.block_count ∧
        q.block_size = p.block_size ∧ q.padded_block_size = p.padded_block_size ∧
        q.arena = p.arena := by
  induction calls with
  | nil =>
    intro p live mp live' h
    simp only [runCalls, Option.some.injEq, Prod.mk.injEq] at h
    exact ⟨p, h.1.symm, rfl, rfl, rfl, rfl, rfl⟩
  | cons c cs ih =>
    intro p live mp live' h
    cases c with
    | alloc tenv timeout =>
      simp only [runCalls] at h
      cases hcall : osMemoryPoolAlloc tenv (some p) timeout with
      | none => rw [hcall] at h; exact absurd h (by simp)
      | some r =>
        obtain ⟨block, mp1⟩ := r
        rw [hcall] at h
        obtain ⟨q, hq, h1, h2, h3, h4, h5⟩ := alloc_frame tenv timeout p block mp1 hcall
        subst hq
        obtain ⟨q', hq', g1, g2, g3, g4, g5⟩ := ih q _ mp live' h
        exact ⟨q', hq', g1.trans h1, g2.trans h2, g3.trans h3, g4.trans h4, g5.trans h5⟩
    | free block =>
      simp only [runCalls] at h
      obtain ⟨q, hq, h1, h2, h3, h4, h5⟩ := free_frame p block
      rw [hq] at h
      obtain ⟨q', hq', g1, g2, g3, g4, g5⟩ := ih q _ mp live' h
      exact ⟨q', hq', g1.trans h1, g2.trans h2, g3.trans h3, g4.trans h4, g5.trans h5⟩

/-- C11: for every pool created by `osMemoryPoolNew(block_count, block_size, attr)` and every
sequence of `osMemoryPoolAlloc` / `osMemoryPoolFree` calls made on it afterwards,
`osMemoryPoolGetCapacity` returns `block_count`, `osMemoryPoolGetBlockSize` returns the
requested `block_size` (not the padded size) and `osMemoryPoolGetName` returns the name of
`attr` (null when `attr` is null): the calls leave these fields as they were. -/
theorem introspection_fixed_fields (env : AllocEnv) (block_count block_size : Nat)
    (attr : Option osMemoryPoolAttr_t) (p : cmsisPosix_memoryPoolHandler_t)
    (calls : List PoolCall) (mp : osMemoryPoolId_t) (live : List Ptr)
    (hnew : osMemoryPoolNew env block_count block_size attr = some p)
    (hrun : runCalls (some p, []) calls = some (mp, live)) :
    osMemoryPoolGetCapacity mp = block_count ∧
    osMemoryPoolGetBlockSize mp = block_size ∧
    osMemoryPoolGetName mp
      = Except.ok (match attr with
          | some a => a.name
          | none => none) ∧
    ∃ q, mp = some q ∧ q.name = p.name ∧ q.block_count = p.block_count ∧
      q.block_size = p.block_size := by
  obtain ⟨_, _, hbc, hbs, _, _, _, _, _, hname⟩ :=
    osMemoryPoolNew_some env block_count block_size attr p hnew
  obtain ⟨q, hq, h1, h2, h3, _, _⟩ := runCalls_frame calls p [] mp live hrun
  subst hq
  refine ⟨?_, ?_, ?_, q, rfl, h1, h2, h3⟩
  · show q.block_count = block_count
    rw [h2, hbc]
  · show q.block_size = block_size
    rw [h3, hbs]
  · show Except.ok q.name = _
    rw [h1, hname]
    cases attr <;> rfl

/-- Concrete instance: the pool `poolNamed`, created with the name `"pool"`, after an
allocation and a release. -/
theorem introspection_fixed_fields_witness :
    osMemoryPoolGetCapacity (some poolNamed) = 4 ∧
    osMemoryPoolGetBlockSize (some poolNamed) = 10 ∧
    osMemoryPoolGetName (some poolNamed)
      = Except.ok (match some attrNamed with
          | some a => a.name
          | none => none) ∧
    ∃ q, some poolNamed = some q ∧ q.name = poolNamed.name ∧
      q.block_count = poolNamed.block_count ∧ q.block_size = poolNamed.block_size :=
  introspection_fixed_fields envOK 4 10 (some attrNamed) poolNamed
    [PoolCall.alloc tenvMs 0, PoolCall.free 4096] (some poolNamed) [] rfl rfl

/-! ## C12: the deadline converter -/

/-- The product of a 32-bit tick count and a tick length of at most `10 ^ 9` nanoseconds lies
in the non-negative range of `int64_t`. -/
theorem total_nanos_bounds (timeout : Nat) (r : Int) (ht : timeout < U32) (hr0 : 0 ≤ r)
    (hr1 : r ≤ 1000000000) :
    0 ≤ (timeout : Int) * r ∧ (timeout : Int) * r ≤ 4294967295000000000 := by
  have ht0 : (0 : Int) ≤ (timeout : Int) := Int.ofNat_nonneg _
  have ht1 : (timeout : Int) ≤ 4294967295 := by
    unfold U32 at ht
    omega
  constructor
  · exact Int.mul_nonneg ht0 hr0
  · calc (timeout : Int) * r ≤ 4294967295 * 1000000000 :=
          Int.mul_le_mul ht1 hr1 hr0 (by decide)
      _ = 4294967295000000000 := by decide

/-- On the range of `int64_t` the reduction `wrapInt64` changes nothing. -/
theorem wrapInt64_of_range (x : Int) (h0 : -9223372036854775808 ≤ x)
    (h1 : x ≤ 9223372036854775807) : wrapInt64 x = x := by
  unfold wrapInt64
  omega

/-- C12: for every clock reading `(sec, nsec)` with `0 ≤ nsec < 10 ^ 9`, every 32-bit tick
count `t` and every tick length `r` with `0 ≤ r ≤ 10 ^ 9`, `cp_timeoutToTimespec` produces
`(sec', nsec')` with `sec' * 10 ^ 9 + nsec' = sec * 10 ^ 9 + nsec + t * r` and
`0 ≤ nsec' < 10 ^ 9`; the product `t * r` lies in the range of `int64_t`, so the 64-bit
signed product of the source is the exact product. -/
theorem timeout_to_deadline (env : TimeEnv) (timeout : Nat) (ht : timeout < U32)
    (hr0 : 0 ≤ env.CP_CONFIG_NANO_IN_TICK) (hr1 : env.CP_CONFIG_NANO_IN_TICK ≤ 1000000000)
    (hn0 : 0 ≤ env.clock_gettime.tv_nsec) (hn1 : env.clock_gettime.tv_nsec < 1000000000) :
    (cp_timeoutToTimespec env timeout).tv_sec * 1000000000
        + (cp_timeoutToTimespec env timeout).tv_nsec
      = env.clock_gettime.tv_sec * 1000000000 + env.clock_gettime.tv_nsec
        + (timeout : Int) * env.CP_CONFIG_NANO_IN_TICK ∧
    0 ≤ (cp_timeoutToTimespec env timeout).tv_nsec ∧
    (cp_timeoutToTimespec env timeout).tv_nsec < 1000000000 ∧
    wrapInt64 ((timeout : Int) * env.CP_CONFIG_NANO_IN_TICK)
      = (timeout : Int) * env.CP_CONFIG_NANO_IN_TICK ∧
    -9223372036854775808 ≤ (timeout : Int) * env.CP_CONFIG_NANO_IN_TICK ∧
    (timeout : Int) * env.CP_CONFIG_NANO_IN_TICK ≤ 9223372036854775807 := by
  obtain ⟨hT0, hT1⟩ := total_nanos_bounds timeout env.CP_CONFIG_NANO_IN_TICK ht hr0 hr1
  have hwrap := wrapInt64_of_range ((timeout : Int) * env.CP_CONFIG_NANO_IN_TICK)
    (by omega) (by omega)
  refine ⟨?_, ?_, ?_, hwrap, by omega, by omega⟩ <;>
  · unfold cp_timeoutToTimespec
    simp only [hwrap]
    generalize (timeout : Int) * env.CP_CONFIG_NANO_IN_TICK = T at hT0 hT1
    rw [Int.tdiv_eq_ediv hT0 (by decide), Int.tmod_eq_emod hT0 (by decide)]
    have hm0 : 0 ≤ env.clock_gettime.tv_nsec + T % 1000000000 := by omega
    have e1 := Int.tdiv_eq_ediv hm0 (by decide : (0 : Int) ≤ 1000000000)
    have e2 := Int.tmod_eq_emod hm0 (by decide : (0 : Int) ≤ 1000000000)
    split
    · rename_i hge
      simp only at hge ⊢
      try rw [e1]
      try rw [e2]
      omega
    · rename_i hlt
      simp only at hlt ⊢
      omega

/-- Concrete instance: `tenvMs` (one millisecond per tick, clock at 100 s and 5 ns) and a
timeout of 2500 ticks. -/
theorem timeout_to_deadline_witness :
    (cp_timeoutToTimespec tenvMs 2500).tv_sec * 1000000000
        + (cp_timeoutToTimespec tenvMs 2500).tv_nsec
      = tenvMs.clock_gettime.tv_sec * 1000000000 + tenvMs.clock_gettime.tv_nsec
        + ((2500 : Nat) : Int) * tenvMs.CP_CONFIG_NANO_IN_TICK ∧
    0 ≤ (cp_timeoutToTimespec tenvMs 2500).tv_nsec ∧
    (cp_timeoutToTimespec tenvMs 2500).tv_nsec < 1000000000 ∧
    wrapInt64 (((2500 : Nat) : Int) * tenvMs.CP_CONFIG_NANO_IN_TICK)
      = ((2500 : Nat) : Int) * tenvMs.CP_CONFIG_NANO_IN_TICK ∧
    -9223372036854775808 ≤ ((2500 : Nat) : Int) * tenvMs.CP_CONFIG_NANO_IN_TICK ∧
    ((2500 : Nat) : Int) * tenvMs.CP_CONFIG_NANO_IN_TICK ≤ 9223372036854775807 :=
  timeout_to_deadline tenvMs 2500 (by decide) (by decide) (by decide) (by decide) (by decide)

/-! ## C13: used and free counts -/

/-- With a counter below `2 ^ 32`, `osMemoryPoolGetSpace` returns the counter. -/
theorem getSpace_eq_sem (p : cmsisPosix_memoryPoolHandler_t) (h : p.sem < U32) :
    osMemoryPoolGetSpace (some p) = p.sem := by
  unfold U32 at h
  have hneg : ¬ ((p.sem : Int) < 0) := by omega
  simp only [osMemoryPoolGetSpace, sem_getvalue, bne_self_eq_false, Bool.false_or,
    decide_eq_true_eq, hneg, if_false, U32]
  omega

/-- With a counter of at most `block_count` and `block_count` below `2 ^ 32`,
`osMemoryPoolGetCount` returns `block_count` minus the counter. -/
theorem getCount_eq_sub (p : cmsisPosix_memoryPoolHandler_t) (h : p.block_count < U32)
    (hle : p.sem ≤ p.block_count) :
    osMemoryPoolGetCount (some p) = p.block_count - p.sem := by
  unfold U32 at h
  have hneg : ¬ ((p.sem : Int) < 0) := by omega
  simp only [osMemoryPoolGetCount, sem_getvalue, bne_self_eq_false, Bool.false_or,
    decide_eq_true_eq, hneg, if_false, U32]
  omega

/-- C13: in every reachable pool state (of a pool whose `block_count` is a `uint32_t` value),
`osMemoryPoolGetSpace` equals the number of slots whose flag is `false`,
`osMemoryPoolGetCount` equals the number of slots whose flag is `true`, and their sum is
`osMemoryPoolGetCapacity`. -/
theorem count_and_space_match_flags (p : cmsisPosix_memoryPoolHandler_t)
    (hreach : Reachable p) (hbc : p.block_count < U32) :
    osMemoryPoolGetSpace (some p) = p.used_flags.count false ∧
    osMemoryPoolGetCount (some p) = p.used_flags.count true ∧
    osMemoryPoolGetCount (some p) + osMemoryPoolGetSpace (some p)
      = osMemoryPoolGetCapacity (some p) := by
  obtain ⟨hlen, hcnt⟩ := reachable_poolInv p hreach
  have hsum := List.count_true_add_count_false p.used_flags
  have hsem : p.sem < U32 := by omega
  rw [getSpace_eq_sem p hsem, getCount_eq_sub p hbc (by omega)]
  refine ⟨by omega, by omega, ?_⟩
  show p.block_count - p.sem + p.sem = p.block_count
  omega

/-- Concrete instance: `poolOneUsed`, one slot of four in use. -/
theorem count_and_space_match_flags_witness :
    osMemoryPoolGetSpace (some poolOneUsed) = poolOneUsed.used_flags.count false ∧
    osMemoryPoolGetCount (some poolOneUsed) = poolOneUsed.used_flags.count true ∧
    osMemoryPoolGetCount (some poolOneUsed) + osMemoryPoolGetSpace (some poolOneUsed)
      = osMemoryPoolGetCapacity (some poolOneUsed) :=
  count_and_space_match_flags poolOneUsed reachable_poolOneUsed (by decide)

/-! ## C14: the scenario with four blocks of ten bytes -/

/-- C14: when every acquisition succeeds, `osMemoryPoolNew(4, 10, attr)` gives a pool with
padded block size 12 whose arena was requested with 48 bytes; four non-blocking allocations
return `arena + 0`, `arena + 12`, `arena + 24`, `arena + 36` in that order; a fifth returns
null; `osMemoryPoolFree(arena + 12)` returns `osOK` and `osMemoryPoolGetSpace` is then 1; the
next non-blocking allocation returns `arena + 12` and `osMemoryPoolGetSpace` is then 0. -/
theorem scenario_four_blocks (env : AllocEnv) (tenv : TimeEnv)
    (attr : Option osMemoryPoolAttr_t) (h : env.allSucceed 4 10) :
    ∃ p0 p1 p2 p3 p4 p5 p6 : cmsisPosix_memoryPoolHandler_t,
      osMemoryPoolNew env 4 10 attr = some p0 ∧
      p0.padded_block_size = 12 ∧
      arenaBytes 4 p0.padded_block_size = 48 ∧
      p0.arena = env.malloc_arena 48 ∧ p0.arena ≠ NULL ∧
      osMemoryPoolAlloc tenv (some p0) 0 = some (p0.arena + 0, some p1) ∧
      osMemoryPoolAlloc tenv (some p1) 0 = some (p0.arena + 12, some p2) ∧
      osMemoryPoolAlloc tenv (some p2) 0 = some (p0.arena + 24, some p3) ∧
      osMemoryPoolAlloc tenv (some p3) 0 = some (p0.arena + 36, some p4) ∧
      osMemoryPoolAlloc tenv (some p4) 0 = some (NULL, some p4) ∧
      osMemoryPoolFree (some p4) (p0.arena + 12) = (osOK, some p5) ∧
      osMemoryPoolGetSpace (some p5) = 1 ∧
      osMemoryPoolAlloc tenv (some p5) 0 = some (p0.arena + 12, some p6) ∧
      osMemoryPoolGetSpace (some p6) = 0 := by
  obtain ⟨h1, h2, h3, h4, h5⟩ := h
  have h48 : arenaBytes 4 (padBlockSize 10) = 48 := by decide
  rw [h48] at h5
  have hnew : osMemoryPoolNew env 4 10 attr
      = some { name := (match attr with
                 | some a => a.name
                 | none => none),
               block_count := 4, block_size := 10, padded_block_size := 12,
               arena := env.malloc_arena 48, sem := 4,
               used_flags := [false, false, false, false] } := by
    unfold osMemoryPoolNew
    simp only [h1, h2, h3, h4, h48]
    have hne : (env.malloc_arena 48 == NULL) = false := by
      simpa using h5
    simp [hne, padBlockSize, U32]
  generalize (match attr with
    | some a => a.name
    | none => none) = nm at hnew
  generalize env.malloc_arena 48 = a at h5 hnew
  refine ⟨_, { name := nm, block_count := 4, block_size := 10, padded_block_size := 12,
               arena := a, sem := 3, used_flags := [true, false, false, false] },
    { name := nm, block_count := 4, block_size := 10, padded_block_size := 12,
      arena := a, sem := 2, used_flags := [true, true, false, false] },
    { name := nm, block_count := 4, block_size := 10, padded_block_size := 12,
      arena := a, sem := 1, used_flags := [true, true, true, false] },
    { name := nm, block_count := 4, block_size := 10, padded_block_size := 12,
      arena := a, sem := 0, used_flags := [true, true, true, true] },
    { name := nm, block_count := 4, block_size := 10, padded_block_size := 12,
      arena := a, sem := 1, used_flags := [true, false, true, true] },
    { name := nm, block_count := 4, block_size := 10, padded_block_size := 12,
      arena := a, sem := 0, used_flags := [true, true, true, true] },
    hnew, rfl, rfl, rfl, h5, rfl, rfl, rfl, rfl, rfl, ?_, rfl, rfl, rfl⟩
  simp [osMemoryPoolFree, freeScan, slotAddr, sem_post, U32]

/-- Concrete instance: the scenario in `envOK`, where the arena is at address 4096. -/
theorem scenario_four_blocks_witness :
    ∃ p0 p1 p2 p3 p4 p5 p6 : cmsisPosix_memoryPoolHandler_t,
      osMemoryPoolNew envOK 4 10 none = some p0 ∧
      p0.padded_block_size = 12 ∧
      arenaBytes 4 p0.padded_block_size = 48 ∧
      p0.arena = envOK.malloc_arena 48 ∧ p0.arena ≠ NULL ∧
      osMemoryPoolAlloc tenvMs (some p0) 0 = some (p0.arena + 0, some p1) ∧
      osMemoryPoolAlloc tenvMs (some p1) 0 = some (p0.arena + 12, some p2) ∧
      osMemoryPoolAlloc tenvMs (some p2) 0 = some (p0.arena + 24, some p3) ∧
      osMemoryPoolAlloc tenvMs (some p3) 0 = some (p0.arena + 36, some p4) ∧
      osMemoryPoolAlloc tenvMs (some p4) 0 = some (NULL, some p4) ∧
      osMemoryPoolFree (some p4) (p0.arena + 12) = (osOK, some p5) ∧
      osMemoryPoolGetSpace (some p5) = 1 ∧
      osMemoryPoolAlloc tenvMs (some p5) 0 = some (p0.arena + 12, some p6) ∧
      osMemoryPoolGetSpace (some p6) = 0 :=
  scenario_four_blocks envOK tenvMs none ⟨rfl, rfl, rfl, rfl, by decide⟩

/-! ## C15, C16: the gate/flag invariant and what it gives -/

/-- With one flag per slot, the predicate of the specification is the bookkeeping
invariant. -/
theorem gateFlagInv_iff_poolInv (p : cmsisPosix_memoryPoolHandler_t)
    (hlen : p.used_flags.length = p.block_count) : GateFlagInv p ↔ PoolInv p := by
  unfold GateFlagInv PoolInv
  constructor
  · rintro ⟨h1, _, h3⟩
    exact ⟨hlen, by omega⟩
  · rintro ⟨_, h2⟩
    exact ⟨by omega, Nat.zero_le _, by omega⟩

/-- The arena of a reachable pool is not null. -/
theorem reachable_arena_ne_null (p : cmsisPosix_memoryPoolHandler_t) (h : Reachable p) :
    p.arena ≠ NULL := by
  induction h with
  | created env bc bs attr p hnew =>
    obtain ⟨_, _, _, _, _, _, harena, _⟩ := osMemoryPoolNew_some env bc bs attr p hnew
    exact harena
  | alloc tenv timeout block p q _ hcall ih =>
    obtain ⟨q', hq, _, _, _, _, ha⟩ := alloc_frame tenv timeout p block (some q) hcall
    simp only [Option.some.injEq] at hq
    subst hq
    rw [ha]
    exact ih
  | free block status p q _ hcall ih =>
    obtain ⟨q', hq, _, _, _, _, ha⟩ := free_frame p block
    rw [hcall] at hq
    simp only [Option.some.injEq] at hq
    subst hq
    rw [ha]
    exact ih

/-- C15: the predicate "gate = `block_count` − (number of set flags) and
0 ≤ number of set flags ≤ `block_count`" holds in the state produced by a successful
`osMemoryPoolNew`, which has one flag per slot; and from every state with one flag per slot
in which it holds, every returning `osMemoryPoolAlloc` call and every `osMemoryPoolFree`
call, whatever its arguments and its result, leads to a non-null handle with one flag per
slot in which it holds again. -/
theorem gate_flag_invariant_preserved :
    (∀ (env : AllocEnv) (block_count block_size : Nat) (attr : Option osMemoryPoolAttr_t)
        (p : cmsisPosix_memoryPoolHandler_t),
        osMemoryPoolNew env block_count block_size attr = some p →
        GateFlagInv p ∧ p.used_flags.length = p.block_count) ∧
    (∀ (tenv : TimeEnv) (timeout : Nat) (block : Ptr) (p : cmsisPosix_memoryPoolHandler_t)
        (mp : osMemoryPoolId_t),
        p.used_flags.length = p.block_count → GateFlagInv p →
        osMemoryPoolAlloc tenv (some p) timeout = some (block, mp) →
        ∃ q, mp = some q ∧ GateFlagInv q ∧ q.used_flags.length = q.block_count) ∧
    (∀ (block : Ptr) (p : cmsisPosix_memoryPoolHandler_t),
        p.used_flags.length = p.block_count → GateFlagInv p →
        ∃ q, (osMemoryPoolFree (some p) block).2 = some q ∧
          GateFlagInv q ∧ q.used_flags.length = q.block_count) := by
  refine ⟨?_, ?_, ?_⟩
  · intro env bc bs attr p hnew
    have hinv := poolInv_new env bc bs attr p hnew
    exact ⟨(gateFlagInv_iff_poolInv p hinv.1).mpr hinv, hinv.1⟩
  · intro tenv timeout block p mp hlen hg hcall
    have hinv := (gateFlagInv_iff_poolInv p hlen).mp hg
    obtain ⟨q, hq, _⟩ := alloc_frame tenv timeout p block mp hcall
    subst hq
    have hq := poolInv_alloc tenv timeout block p q hinv hcall
    exact ⟨q, rfl, (gateFlagInv_iff_poolInv q hq.1).mpr hq, hq.1⟩
  · intro block p hlen hg
    have hinv := (gateFlagInv_iff_poolInv p hlen).mp hg
    obtain ⟨q, hq, _⟩ := free_frame p block
    have hq' := poolInv_free block (osMemoryPoolFree (some p) block).1 p q hinv
      (by rw [← hq])
    exact ⟨q, hq, (gateFlagInv_iff_poolInv q hq'.1).mpr hq', hq'.1⟩

/-- Concrete instance: creation of 4 blocks of 10 bytes in `envOK`, an allocation on
`poolOneUsed` and a release of its slot 0. -/
theorem gate_flag_invariant_preserved_witness :
    (GateFlagInv poolNamed ∧ poolNamed.used_flags.length = poolNamed.block_count) ∧
    (∃ q, some { poolOneUsed with sem := 2, used_flags := [true, true, false, false] } = some q ∧
      GateFlagInv q ∧ q.used_flags.length = q.block_count) ∧
    (∃ q, (osMemoryPoolFree (some poolOneUsed) 4096).2 = some q ∧
      GateFlagInv q ∧ q.used_flags.length = q.block_count) :=
  have hg : GateFlagInv poolOneUsed := ⟨by decide, by decide, by decide⟩
  ⟨gate_flag_invariant_preserved.1 envOK 4 10 (some attrNamed) poolNamed rfl,
    gate_flag_invariant_preserved.2.1 tenvMs 0 4108 poolOneUsed _ rfl hg rfl,
    gate_flag_invariant_preserved.2.2 4096 poolOneUsed rfl hg⟩

/-- C16: in every reachable pool state with a positive semaphore counter (admission
succeeds), for every timeout value, the scan of `osMemoryPoolAlloc` finds a free slot and the
call returns a non-null block, the address of the lowest free slot: the scan never ends
with `block` still null. -/
theorem admitted_alloc_finds_slot (tenv : TimeEnv) (p : cmsisPosix_memoryPoolHandler_t)
    (timeout : Nat) (hreach : Reachable p) (hgate : 0 < p.sem) :
    (allocScan p p.block_count 0).1 ≠ NULL ∧
    ∃ (i : Nat) (q : cmsisPosix_memoryPoolHandler_t),
      i < p.block_count ∧ p.used_flags[i]? = some false ∧
      osMemoryPoolAlloc tenv (some p) timeout = some (slotAddr p i, some q) ∧
      slotAddr p i ≠ NULL ∧ q.used_flags[i]? = some true := by
  obtain ⟨hlen, hcnt⟩ := reachable_poolInv p hreach
  have harena := reachable_arena_ne_null p hreach
  have hlt : p.used_flags.count true < p.used_flags.length := by omega
  obtain ⟨k, hk⟩ := exists_free_of_count_lt p.used_flags hlt
  obtain ⟨i, _, hfree, hmin⟩ := exists_lowest_free p.used_flags k hk
  have hilen : i < p.used_flags.length := by
    rcases List.getElem?_eq_some_iff.mp hfree with ⟨h', _⟩
    exact h'
  have hi : i < p.block_count := by omega
  have hne : slotAddr p i ≠ NULL := by
    have hpos : 0 < p.arena := Nat.pos_of_ne_zero harena
    exact Nat.ne_of_gt (Nat.lt_of_lt_of_le hpos (Nat.le_add_right _ _))
  have hscan : allocScan p p.block_count 0 = (slotAddr p i, p.used_flags.set i true) :=
    allocScan_first p i hfree p.block_count 0 (Nat.zero_le _) (by omega)
      (fun j _ hj => hmin j hj)
  refine ⟨by rw [hscan]; exact hne, i, _, hi, hfree,
    alloc_eq_of_first_free tenv p timeout i hgate hi hfree hmin, hne, ?_⟩
  simp [List.getElem?_set_self hilen]

/-- Concrete instance: `poolOneUsed` has counter 3. -/
theorem admitted_alloc_finds_slot_witness :
    (allocScan poolOneUsed poolOneUsed.block_count 0).1 ≠ NULL ∧
    ∃ (i : Nat) (q : cmsisPosix_memoryPoolHandler_t),
      i < poolOneUsed.block_count ∧ poolOneUsed.used_flags[i]? = some false ∧
      osMemoryPoolAlloc tenvMs (some poolOneUsed) osWaitForever
        = some (slotAddr poolOneUsed i, some q) ∧
      slotAddr poolOneUsed i ≠ NULL ∧ q.used_flags[i]? = some true :=
  admitted_alloc_finds_slot tenvMs poolOneUsed osWaitForever reachable_poolOneUsed
    (by decide)

/-! ## C17: the state after creation -/

/-- The state produced by a successful `osMemoryPoolNew`: one clear flag per slot, a counter
of `block_count`, and an arena obtained by requesting the `uint32_t` product
`block_count * padded_block_size` bytes, which is the plain product when that is below
`2 ^ 32`. -/
theorem new_pool_initial_state (env : AllocEnv) (block_count block_size : Nat)
    (attr : Option osMemoryPoolAttr_t) (p : cmsisPosix_memoryPoolHandler_t)
    (h : osMemoryPoolNew env block_count block_size attr = some p) :
    p.used_flags.length = block_count ∧ (∀ b ∈ p.used_flags, b = false) ∧
    p.sem = block_count ∧
    p.arena = env.malloc_arena (arenaBytes block_count p.padded_block_size) ∧
    (block_count * p.padded_block_size < U32 →
      arenaBytes block_count p.padded_block_size = block_count * p.padded_block_size) := by
  obtain ⟨_, _, _, _, hpad, harena, _, hsem, hflags, _⟩ :=
    osMemoryPoolNew_some env block_count block_size attr p h
  refine ⟨by rw [hflags]; simp, ?_, hsem, by rw [hpad]; exact harena, ?_⟩
  · intro b hb
    rw [hflags] at hb
    exact (List.mem_replicate.mp hb).2
  · intro hsmall
    exact Nat.mod_eq_of_lt hsmall

/-- C17 fails for `osMemoryPoolNew(3, 2147483648, NULL)`: the pool has 3 clear flags and a
counter of 3, but the arena is requested with `3 * 2147483648 mod 2 ^ 32 = 2147483648` bytes,
fewer than the `block_count * padded_block_size = 6442450944` bytes of the claim.  Likewise
65537 blocks of 65536 bytes get an arena request of 65536 bytes instead of 4295032832. -/
theorem arena_shorter_than_slots :
    osMemoryPoolNew envOK 3 2147483648 none
      = some { name := none, block_count := 3, block_size := 2147483648,
               padded_block_size := 2147483648, arena := 4096, sem := 3,
               used_flags := [false, false, false] } ∧
    arenaBytes 3 2147483648 = 2147483648 ∧
    3 * 2147483648 = 6442450944 ∧
    arenaBytes 3 2147483648 ≠ 3 * 2147483648 ∧
    arenaBytes 65537 (padBlockSize 65536) = 65536 ∧
    65537 * padBlockSize 65536 = 4295032832 := by
  refine ⟨by decide, by decide, by decide, by decide, by decide, by decide⟩

/-! ## C18: allocation followed by release -/

/-- Writing back the value a list already has at an index gives the list. -/
theorem set_of_getElem? (l : List Bool) (i : Nat) (b : Bool) (h : l[i]? = some b) :
    l.set i b = l := by
  apply List.ext_getElem?
  intro n
  by_cases hn : i = n
  · subst hn
    rcases List.getElem?_eq_some_iff.mp h with ⟨hlen, _⟩
    rw [List.getElem?_set_self hlen, h]
  · rw [List.getElem?_set_ne hn]

/-- C18: in every pool state that satisfies the gate/flag invariant (with one flag per
slot), with `block_count * padded_block_size < 2 ^ 32` and `padded_block_size > 0`, if
`osMemoryPoolAlloc` succeeds and returns the non-null `block`, then `osMemoryPoolFree` of
`block` right after returns `osOK` and gives back the pool as it was before the allocation,
`used_flags` and the semaphore counter included. -/
theorem alloc_free_round_trip (tenv : TimeEnv) (timeout : Nat)
    (p q : cmsisPosix_memoryPoolHandler_t) (block : Ptr)
    (hlen : p.used_flags.length = p.block_count) (hginv : GateFlagInv p)
    (hsmall : p.block_count * p.padded_block_size < U32) (hpos : 0 < p.padded_block_size)
    (hcall : osMemoryPoolAlloc tenv (some p) timeout = some (block, some q))
    (hblock : block ≠ NULL) :
    osMemoryPoolFree (some q) block = (osOK, some p) ∧
    (∀ r, (osMemoryPoolFree (some q) block).2 = some r →
      r.used_flags = p.used_flags ∧ r.sem = p.sem) := by
  obtain ⟨_, hcnt⟩ := (gateFlagInv_iff_poolInv p hlen).mp hginv
  have hgate : 0 < p.sem := by
    by_contra hz
    have hzero : p.sem = 0 := by omega
    by_cases hto : timeout = osWaitForever
    · rw [hto, alloc_eq_of_gate_zero_forever tenv p hzero] at hcall
      exact absurd hcall (by simp)
    · rw [alloc_eq_of_gate_zero tenv p timeout hzero hto] at hcall
      simp only [Option.some.injEq, Prod.mk.injEq] at hcall
      exact hblock hcall.1.symm
  have hlt : p.used_flags.count true < p.used_flags.length := by omega
  obtain ⟨k, hk⟩ := exists_free_of_count_lt p.used_flags hlt
  obtain ⟨i, _, hfree, hmin⟩ := exists_lowest_free p.used_flags k hk
  have hilen : i < p.used_flags.length := by
    rcases List.getElem?_eq_some_iff.mp hfree with ⟨h', _⟩
    exact h'
  have hi : i < p.block_count := by omega
  rw [alloc_eq_of_first_free tenv p timeout i hgate hi hfree hmin] at hcall
  simp only [Option.some.injEq, Prod.mk.injEq] at hcall
  obtain ⟨hb, hq⟩ := hcall
  subst hb hq
  have hused : (p.used_flags.set i true).getD i false = true := by
    simp [List.getD_eq_getElem?_getD, List.getElem?_set_self hilen]
  have hscan := freeScan_first
    { p with sem := p.sem - 1, used_flags := p.used_flags.set i true } (slotAddr p i) i
    rfl hused p.block_count 0 (Nat.zero_le _) (by omega)
    (by
      intro j _ hji hbj
      have hij : i = j := slotAddr_injective p i j hpos hsmall hi (by omega) hbj
      omega)
  have hflags : (p.used_flags.set i true).set i false = p.used_flags := by
    rw [List.set_set]
    exact set_of_getElem? _ _ _ hfree
  have hres : osMemoryPoolFree
      (some { p with sem := p.sem - 1, used_flags := p.used_flags.set i true })
      (slotAddr p i) = (osOK, some p) := by
    rw [free_eq_of_scan _ _ _ _ hscan]
    simp only [if_true, hflags, Prod.mk.injEq, Option.some.injEq, true_and]
    cases p
    simp only [cmsisPosix_memoryPoolHandler_t.mk.injEq, true_and, and_true]
    simp only at hgate
    omega
  refine ⟨hres, ?_⟩
  intro r hr
  rw [hres] at hr
  simp only [Option.some.injEq] at hr
  subst hr
  exact ⟨rfl, rfl⟩

/-- Concrete instance: a non-blocking allocation on `poolOneUsed` returns the address 4108
of slot 1; releasing it gives `poolOneUsed` back. -/
theorem alloc_free_round_trip_witness :
    osMemoryPoolFree
        (some { name := none, block_count := 4, block_size := 10, padded_block_size := 12,
                arena := 4096, sem := 2, used_flags := [true, true, false, false] }) 4108
      = (osOK, some poolOneUsed) ∧
    (∀ r, (osMemoryPoolFree
        (some { name := none, block_count := 4, block_size := 10, padded_block_size := 12,
                arena := 4096, sem := 2, used_flags := [true, true, false, false] }) 4108).2
          = some r →
      r.used_flags = poolOneUsed.used_flags ∧ r.sem = poolOneUsed.sem) :=
  alloc_free_round_trip tenvMs 0 poolOneUsed _ 4108 rfl ⟨by decide, by decide, by decide⟩
    (by decide) (by decide) rfl (by decide)

/-! ## C19, C20: slot ranges and padding without wrap-around -/

/-- For a non-zero stride `pad` with `block_count * pad < 2 ^ 32`: the 32-bit offsets of the
slots are pairwise distinct, each slot range ends within the 32-bit product
`block_count * pad`, and two different slot ranges do not overlap. -/
theorem slot_offsets_no_wrap (block_count pad : Nat) (hpos : 0 < pad)
    (hsmall : block_count * pad < U32) :
    (∀ i j, i < block_count → j < block_count → i ≠ j →
      (i * pad) % U32 ≠ (j * pad) % U32) ∧
    (∀ i, i < block_count → (i * pad) % U32 + pad ≤ arenaBytes block_count pad) ∧
    (∀ i j, i < block_count → j < block_count → i ≠ j →
      (i * pad) % U32 + pad ≤ (j * pad) % U32 ∨ (j * pad) % U32 + pad ≤ (i * pad) % U32) := by
  have hoff : ∀ i, i < block_count →
      (i * pad) % U32 = i * pad ∧ i * pad + pad ≤ block_count * pad := by
    intro i hi
    have h1 : (i + 1) * pad ≤ block_count * pad := Nat.mul_le_mul_right _ hi
    rw [Nat.add_mul, Nat.one_mul] at h1
    exact ⟨Nat.mod_eq_of_lt (by omega), h1⟩
  have harena : arenaBytes block_count pad = block_count * pad := Nat.mod_eq_of_lt hsmall
  have hsep : ∀ i j, i < j → i * pad + pad ≤ j * pad := by
    intro i j hij
    have h1 : (i + 1) * pad ≤ j * pad := Nat.mul_le_mul_right _ hij
    rw [Nat.add_mul, Nat.one_mul] at h1
    exact h1
  have hdisj : ∀ i j, i < block_count → j < block_count → i ≠ j →
      (i * pad) % U32 + pad ≤ (j * pad) % U32 ∨ (j * pad) % U32 + pad ≤ (i * pad) % U32 := by
    intro i j hi hj hij
    rw [(hoff i hi).1, (hoff j hj).1]
    rcases Nat.lt_or_gt_of_ne hij with h | h
    · exact Or.inl (hsep i j h)
    · exact Or.inr (hsep j i h)
  refine ⟨?_, ?_, hdisj⟩
  · intro i j hi hj hij heq
    rcases hdisj i j hi hj hij with h | h <;> omega
  · intro i hi
    rw [(hoff i hi).1, harena]
    exact (hoff i hi).2

/-- C19: for every `block_count > 0` and `block_size > 0` with `block_size ≤ 2 ^ 32 - 4` and
`block_count * padded_block_size < 2 ^ 32`, the slot offsets `idx * padded_block_size`
(`uint32_t` products) for `idx < block_count` are pairwise distinct, every slot's byte range
`[offset, offset + padded_block_size)` ends within the requested arena length, and the
ranges of two different slots do not overlap; the same holds, relative to the arena, for
the slot addresses of every pool created with these arguments. -/
theorem slot_ranges_disjoint_in_arena (block_count block_size : Nat)
    (_hbc : 0 < block_count) (hbs : 0 < block_size) (hbs4 : block_size ≤ 4294967292)
    (hsmall : block_count * padBlockSize block_size < U32) :
    (∀ i j, i < block_count → j < block_count → i ≠ j →
      (i * padBlockSize block_size) % U32 ≠ (j * padBlockSize block_size) % U32) ∧
    (∀ i, i < block_count →
      (i * padBlockSize block_size) % U32 + padBlockSize block_size
        ≤ arenaBytes block_count (padBlockSize block_size)) ∧
    (∀ i j, i < block_count → j < block_count → i ≠ j →
      (i * padBlockSize block_size) % U32 + padBlockSize block_size
          ≤ (j * padBlockSize block_size) % U32 ∨
      (j * padBlockSize block_size) % U32 + padBlockSize block_size
          ≤ (i * padBlockSize block_size) % U32) ∧
    (∀ (env : AllocEnv) (attr : Option osMemoryPoolAttr_t)
        (p : cmsisPosix_memoryPoolHandler_t),
      osMemoryPoolNew env block_count block_size attr = some p →
      ∀ i j, i < block_count → j < block_count → i ≠ j →
        slotAddr p i ≠ slotAddr p j ∧
        p.arena ≤ slotAddr p i ∧
        slotAddr p i + p.padded_block_size
          ≤ p.arena + arenaBytes block_count p.padded_block_size ∧
        (slotAddr p i + p.padded_block_size ≤ slotAddr p j ∨
          slotAddr p j + p.padded_block_size ≤ slotAddr p i)) := by
  have hpad : block_size ≤ padBlockSize block_size := by
    unfold padBlockSize U32
    omega
  have hpos : 0 < padBlockSize block_size := by omega
  obtain ⟨hdist, hin, hdisj⟩ :=
    slot_offsets_no_wrap block_count (padBlockSize block_size) hpos hsmall
  refine ⟨hdist, hin, hdisj, ?_⟩
  intro env attr p hnew i j hi hj hij
  have hp : p.padded_block_size = padBlockSize block_size :=
    (osMemoryPoolNew_some env block_count block_size attr p hnew).2.2.2.2.1
  have h1 := hdist i j hi hj hij
  have h2 := hin i hi
  have h3 := hdisj i j hi hj hij
  simp only [slotAddr, hp]
  refine ⟨?_, Nat.le_add_right _ _, ?_, ?_⟩
  · intro heq
    exact h1 (Nat.add_left_cancel heq)
  · rw [Nat.add_assoc]
    exact Nat.add_le_add_left h2 _
  · rcases h3 with h | h
    · left
      rw [Nat.add_assoc]
      exact Nat.add_le_add_left h _
    · right
      rw [Nat.add_assoc]
      exact Nat.add_le_add_left h _

/-- Concrete instance: 4 blocks of 10 bytes (padded size 12, arena of 48 bytes). -/
theorem slot_ranges_disjoint_in_arena_witness :
    (∀ i j, i < 4 → j < 4 → i ≠ j →
      (i * padBlockSize 10) % U32 ≠ (j * padBlockSize 10) % U32) ∧
    (∀ i, i < 4 →
      (i * padBlockSize 10) % U32 + padBlockSize 10 ≤ arenaBytes 4 (padBlockSize 10)) ∧
    (∀ i j, i < 4 → j < 4 → i ≠ j →
      (i * padBlockSize 10) % U32 + padBlockSize 10 ≤ (j * padBlockSize 10) % U32 ∨
      (j * padBlockSize 10) % U32 + padBlockSize 10 ≤ (i * padBlockSize 10) % U32) ∧
    (∀ (env : AllocEnv) (attr : Option osMemoryPoolAttr_t)
        (p : cmsisPosix_memoryPoolHandler_t),
      osMemoryPoolNew env 4 10 attr = some p →
      ∀ i j, i < 4 → j < 4 → i ≠ j →
        slotAddr p i ≠ slotAddr p j ∧
        p.arena ≤ slotAddr p i ∧
        slotAddr p i + p.padded_block_size ≤ p.arena + arenaBytes 4 p.padded_block_size ∧
        (slotAddr p i + p.padded_block_size ≤ slotAddr p j ∨
          slotAddr p j + p.padded_block_size ≤ slotAddr p i)) :=
  slot_ranges_disjoint_in_arena 4 10 (by decide) (by decide) (by decide) (by decide)

/-- C20: for every `block_size` with `1 ≤ block_size ≤ 2 ^ 32 - 4`, the 32-bit value
`p = 4 * ((block_size + 3) / 4)` of `osMemoryPoolNew` satisfies `p % 4 = 0` and
`block_size ≤ p ≤ block_size + 3`; `p = block_size` exactly when `block_size` is a multiple
of 4; and padding `p` again gives `p`. -/
theorem padding_properties (block_size : Nat) (h1 : 1 ≤ block_size)
    (h2 : block_size ≤ 4294967292) :
    padBlockSize block_size % 4 = 0 ∧
    block_size ≤ padBlockSize block_size ∧
    padBlockSize block_size ≤ block_size + 3 ∧
    (padBlockSize block_size = block_size ↔ block_size % 4 = 0) ∧
    padBlockSize (padBlockSize block_size) = padBlockSize block_size := by
  unfold padBlockSize U32
  refine ⟨?_, ?_, ?_, ?_, ?_⟩ <;> omega

/-- Concrete instance: a block size of 10 is padded to 12. -/
theorem padding_properties_witness :
    padBlockSize 10 % 4 = 0 ∧
    10 ≤ padBlockSize 10 ∧
    padBlockSize 10 ≤ 10 + 3 ∧
    (padBlockSize 10 = 10 ↔ 10 % 4 = 0) ∧
    padBlockSize (padBlockSize 10) = padBlockSize 10 :=
  padding_properties 10 (by decide) (by decide)

end CmsisPosix
